import Mathlib

/-!
Verification development for the selection-ledger core of the
fts-sports-trading-server repository.

The embedding models the two controller variants found in the source:
`src/controllers/selectionController.js` (wired by `src/routes/selectionRoutes.js`)
and the refined variant `src/unnamed/part_014` (the version with
`normalizeTime`, the `hasResult` candidate filter and the per-system bulk
recompute).  JavaScript numbers are modelled as rationals, JS
`null`/`undefined` fields as `Option`, and MongoDB documents as members of a
`List Selection` ledger; queries sorted by `rowOrder` are modelled with an
insertion sort.  CSV text parsing and HTTP mechanics are out of scope: feed
rows enter the model already column-mapped, as the spec's section 6 prescribes.
-/

/-- Race results, the value of `result.toUpperCase()` in the source.  The
source stores the result as a string and upper-cases it before every
comparison; the embedding works directly with the canonical upper-case
values. -/
inductive RaceResult where
  | WON
  | LOST
  | PLACED
  | NR
  | VOID
  | CANCELLED
deriving DecidableEq, Repr

/-- One `SystemSelection` document (schema in `src/unnamed/part_008`).
Fields that the schema leaves unset until settlement (`result`, `winBsp`,
`winPL`, `runningWinPL`, `placeBsp`, `placePL`, `runningPlacePL`) are
`Option`s; `none` models the JS `undefined`/absent field (the code never
stores a literal `null` in them).  `time` and the string fields required by
the schema are plain strings; an absent `time` is modelled as `""`, matching
the `selection.time || ""` reads in the source. -/
structure Selection where
  id : Nat
  systemId : Nat
  dateISO : String
  time : String
  horse : String
  country : Option String
  meeting : Option String
  rowOrder : Nat
  hasResult : Bool
  result : Option RaceResult
  winBsp : Option ℚ
  winPL : Option ℚ
  runningWinPL : Option ℚ
  placeBsp : Option ℚ
  placePL : Option ℚ
  runningPlacePL : Option ℚ
deriving DecidableEq, Repr

/-- Builder for a freshly created, unresulted selection row, as produced by
the creation endpoints: `hasResult = false`, every settlement field unset. -/
def mkSel (id sys ro : Nat) (d t h : String) : Selection :=
  ⟨id, sys, d, t, h, none, none, ro, false, none, none, none, none, none, none, none⟩

/-- JS `String.prototype.trim` on a character list. -/
def jsTrimList (cs : List Char) : List Char :=
  ((cs.dropWhile Char.isWhitespace).reverse.dropWhile Char.isWhitespace).reverse

/-- JS `split(":")` on a character list: `""` splits to `[""]`, a trailing
separator yields a trailing empty component. -/
def splitColon (cs : List Char) : List (List Char) :=
  match cs with
  | [] => [[]]
  | c :: rest =>
    let r := splitColon rest
    if c = ':' then [] :: r
    else
      match r with
      | [] => [[c]]
      | h :: t => (c :: h) :: t

/-- JS `padStart(2, "0")`. -/
def padStart2 (cs : List Char) : List Char :=
  if cs.length ≥ 2 then cs
  else if cs.length = 1 then '0' :: cs
  else ['0', '0']

/-- Test for the regex `^\d{1,2}:\d{2}:\d{2}$` used by `normalizeTime` in
`src/unnamed/part_014`. -/
def matchesHMS (cs : List Char) : Bool :=
  match cs with
  | [h1, c1, m1, m2, c2, s1, s2] =>
    h1.isDigit && c1 = ':' && m1.isDigit && m2.isDigit && c2 = ':' &&
      s1.isDigit && s2.isDigit
  | [h1, h2, c1, m1, m2, c2, s1, s2] =>
    h1.isDigit && h2.isDigit && c1 = ':' && m1.isDigit && m2.isDigit &&
      c2 = ':' && s1.isDigit && s2.isDigit
  | _ => false

/-- The `normalizeTime` helper of `src/unnamed/part_014` (lines 20-36):
trim, drop a seconds component via `substring(0, 5)` when the trimmed string
matches `^\d{1,2}:\d{2}:\d{2}$`, then zero-pad hour and minute when the
result splits into exactly two `:`-separated parts. -/
def normalizeTime (timeStr : String) : String :=
  if timeStr = "" then ""
  else
    let normalized := jsTrimList timeStr.toList
    let normalized := if matchesHMS normalized then normalized.take 5 else normalized
    match splitColon normalized with
    | [h, m] => String.mk (padStart2 h ++ ':' :: padStart2 m)
    | _ => String.mk normalized

/-- JS `horse.toLowerCase().trim()` (ASCII lowering). -/
def normalizeHorse (s : String) : String :=
  String.mk (jsTrimList (s.toList.map Char.toLower))

/-- Match key a candidate selection contributes to the lookup map in
`src/unnamed/part_014` (phase 3). -/
def selKey (s : Selection) : String :=
  s.dateISO ++ "|" ++ normalizeTime s.time ++ "|" ++ normalizeHorse s.horse

/-- The win-market P/L function of `src/controllers/selectionController.js`
(lines 41-49): `1 - winBsp` for WON, `0.98` for LOST or PLACED, `0`
otherwise. -/
def calculateWinPL (result : RaceResult) (winBsp : ℚ) : ℚ :=
  match result with
  | .WON => 1 - winBsp
  | .LOST => 98 / 100
  | .PLACED => 98 / 100
  | _ => 0

/-- The win-market P/L function of `src/unnamed/part_014` (lines 60-74):
`1 - winBsp` for WON, `0.98` for LOST, `0` for NR, VOID and CANCELLED, and
`0` for anything else (PLACED falls through to the final `return 0`). -/
def calculateWinPLResults (result : RaceResult) (winBsp : ℚ) : ℚ :=
  match result with
  | .WON => 1 - winBsp
  | .LOST => 98 / 100
  | .NR => 0
  | .VOID => 0
  | .CANCELLED => 0
  | _ => 0

/-- The place-market P/L function (identical in both source variants).
For WON with a `placeBsp` it returns `1 - placeBsp`, for WON without one
`1.0`; for PLACED it computes `1 - placeBsp`, which in JS coerces an absent
`placeBsp` to `0` and yields `1`; every other result falls through to
`return 0.98`. -/
def calculatePlacePL (result : RaceResult) (placeBsp : Option ℚ) : ℚ :=
  match result with
  | .WON =>
    match placeBsp with
    | some b => 1 - b
    | none => 1
  | .PLACED => 1 - placeBsp.getD 0
  | _ => 98 / 100

/-- Result derivation of the CSV settlement flow in
`src/controllers/selectionController.js` (lines 574-586): a negative win-lay
return means WON; otherwise a negative place-lay return means PLACED, but
only on System 1 (the only system with a place market); otherwise LOST. -/
def deriveResultCtl (isSystem1 : Bool) (layReturn placeLayReturn : Option ℚ) :
    RaceResult :=
  if (match layReturn with | some v => decide (v < 0) | none => false) then .WON
  else if isSystem1 &&
      (match placeLayReturn with | some v => decide (v < 0) | none => false) then
    .PLACED
  else .LOST

/-- Result derivation of the CSV settlement flow in `src/unnamed/part_014`
(lines 644-652): a negative win-lay return means WON, anything else LOST;
this variant never produces PLACED. -/
def deriveResultV2 (layReturn : Option ℚ) : RaceResult :=
  if (match layReturn with | some v => decide (v < 0) | none => false) then .WON
  else .LOST

/-- Ordering by `rowOrder`, the sort key of every ledger query in the
source (`.sort({ rowOrder: 1 })`). -/
def roLE (a b : Selection) : Prop := a.rowOrder ≤ b.rowOrder

instance : DecidableRel roLE := fun a b => inferInstanceAs (Decidable (a.rowOrder ≤ b.rowOrder))

instance : IsTotal Selection roLE := ⟨fun a b => Nat.le_total a.rowOrder b.rowOrder⟩

instance : IsTrans Selection roLE := ⟨fun _ _ _ h h2 => Nat.le_trans h h2⟩

/-- A MongoDB query result ordered by ascending `rowOrder`. -/
def sortByRowOrder (l : List Selection) : List Selection :=
  l.insertionSort roLE

/-- Shared shape of every map/`findById` lookup in the model: the last
element satisfying the predicate, i.e. `Map.get` after a sequence of
`Map.set` calls in iteration order. -/
def lastMatch {q : Type} (p : q → Bool) (l : List q) : Option q :=
  l.foldl (fun acc u => if p u then some u else acc) none

/-- The `findById` lookup; with unique ids at most one document matches. -/
def getById (L : List Selection) (id : Nat) : Option Selection :=
  lastMatch (fun s => decide (s.id = id)) L

/-- Sum of `winPL` treating an unset value as `0`, the
`reduce((sum, s) => sum + (s.winPL || 0), 0)` pattern of the source. -/
def sumWin (l : List Selection) : ℚ :=
  (l.map (fun s => s.winPL.getD 0)).sum

/-- Sum of `placePL` treating an unset value as `0`. -/
def sumPlaceAll (l : List Selection) : ℚ :=
  (l.map (fun s => s.placePL.getD 0)).sum

/-- Sum of `placePL` over the rows where it is set: the
`filter(placePL !== null).reduce(...)` pattern of `deleteSelection`. -/
def sumPlaceSome (l : List Selection) : ℚ :=
  sumPlaceAll (l.filter (fun s => s.placePL.isSome))

/-- Prefix sum of `winPL` over every row of a system at or before a given
`rowOrder` (unset `winPL` counting as `0`): the right-hand side of the
spec's prefix-sum invariant. -/
def winPrefixSum (L : List Selection) (sys ro : Nat) : ℚ :=
  sumWin (L.filter (fun t => decide (t.systemId = sys) && decide (t.rowOrder ≤ ro)))

/-- The query backing the lazy place-total recovery in the subsequent-row
walks: all rows of the system with `rowOrder` at most the bound and a set
`placePL` (`placePL: { $ne: null }` in the source), summed. -/
def placeRefetch (ctx : List Selection) (sys ro : Nat) : ℚ :=
  sumPlaceAll (ctx.filter (fun t =>
    decide (t.systemId = sys) && decide (t.rowOrder ≤ ro) && t.placePL.isSome))

/-- Correct-when-present form of the prefix-sum invariant: every row whose
`runningWinPL` is set carries exactly the prefix sum of `winPL` over its
system up to its `rowOrder`. -/
def InvWin (L : List Selection) : Prop :=
  ∀ s ∈ L, s.runningWinPL = none ∨
    s.runningWinPL = some (winPrefixSum L s.systemId s.rowOrder)

/-- The prefix-sum property exactly as the claim states it, for every row
of the ledger. -/
def ClaimC1Stated (L : List Selection) : Prop :=
  ∀ s ∈ L, s.runningWinPL = some (winPrefixSum L s.systemId s.rowOrder)

/-- Document ids are pairwise distinct (MongoDB `_id` uniqueness). -/
def idsNodup (L : List Selection) : Prop := (L.map (fun s => s.id)).Nodup

/-- Within each system the `rowOrder` values are pairwise distinct (the
spec's data-model invariant 1). -/
def sysOrdersNodup (L : List Selection) : Prop :=
  ∀ sys : Nat, ((L.filter (fun s => decide (s.systemId = sys))).map
    (fun s => s.rowOrder)).Nodup

/-- One already column-mapped row of the settlement feed, after the date has
been converted to ISO (`ukToIso`); an unparseable date is modelled as
`dateISO = ""`.  `betfairSP`/`betfairLayReturn` model the `parseFloat`
results, with `none` covering the absent, empty and `NaN` cases that the
source treats identically. -/
structure FeedRow where
  dateISO : String
  time : String
  horse : String
  country : String
  track : String
  betfairSP : Option ℚ
  betfairLayReturn : Option ℚ
deriving DecidableEq, Repr

/-- Match key computed for a feed row in `src/unnamed/part_014`
(lines 601-604). -/
def feedKey (r : FeedRow) : String :=
  r.dateISO ++ "|" ++ normalizeTime r.time ++ "|" ++ normalizeHorse r.horse

/-- Candidate selections of a settlement batch: the phase-2 query of
`src/unnamed/part_014` (lines 514-519) restricted to the dates present in
the feed and to rows without a result (`hasResult: { $ne: true }`). -/
def candidatesOf (L : List Selection) (feed : List FeedRow) : List Selection :=
  let dates := (feed.filter (fun r => !(r.dateISO = ""))).map (fun r => r.dateISO)
  L.filter (fun s => decide (s.dateISO ∈ dates) && !s.hasResult)

/-- Lookup in the phase-3 selection map.  `Map.set` overwrites, so when two
candidates share a key the later one is the map entry. -/
def selMapLookup (cands : List Selection) (k : String) : Option Selection :=
  lastMatch (fun s => decide (selKey s = k)) cands

/-- The `hasValidBetfairSP` predicate:
`betfairSP !== null && !isNaN(betfairSP) && betfairSP > 0`. -/
def validSP (sp : Option ℚ) : Bool :=
  match sp with
  | some v => decide (v > 0)
  | none => false

/-- The update collected for a matched, settleable selection in phase 4 of
`src/unnamed/part_014` (lines 644-674). -/
structure UpdateRec where
  selectionId : Nat
  systemId : Nat
  rowOrder : Nat
  result : RaceResult
  winBsp : ℚ
  winPL : ℚ
  country : Option String
  meeting : Option String
deriving DecidableEq, Repr

/-- Builds the update for a matched selection from a feed row with a valid
settlement price: result from the lay-return sign, `winPL` from the
calculator, `country`/`meeting` falling back to the selection's values when
the feed cell is empty (`country || selection.country`). -/
def mkUpdate (s : Selection) (r : FeedRow) (sp : ℚ) : UpdateRec :=
  let result := deriveResultV2 r.betfairLayReturn
  { selectionId := s.id
    systemId := s.systemId
    rowOrder := s.rowOrder
    result := result
    winBsp := sp
    winPL := calculateWinPLResults result sp
    country := if r.country = "" then s.country else some r.country
    meeting := if r.track = "" then s.meeting else some r.track }

/-- Phase 4 of `src/unnamed/part_014`: walk the feed rows in order, skip
rows with missing required fields, skip rows whose key finds no map entry,
skip matched selections without a valid settlement price, and collect an
update otherwise.  The `matched` flag set in the source does not guard this
collection (the guard reads the immutable `hasResult` snapshot), so duplicate
feed rows with one key each contribute an update. -/
def collectUpdates (cands : List Selection) (feed : List FeedRow) : List UpdateRec :=
  feed.foldl (fun acc r =>
    if r.dateISO = "" || r.time = "" || r.horse = "" then acc
    else
      match selMapLookup cands (feedKey r) with
      | none => acc
      | some s =>
        if s.hasResult then acc
        else if validSP r.betfairSP then acc ++ [mkUpdate s r (r.betfairSP.getD 0)]
        else acc) []

/-- Lookup in the phase-6 per-system `updatesMap`; `Map.set` overwrites, so
the last collected update for a selection wins. -/
def updLookup (ups : List UpdateRec) (id : Nat) : Option UpdateRec :=
  lastMatch (fun u => decide (u.selectionId = id)) ups

/-- The `$set` document written for an updated selection in phase 6: the
full update data plus the recomputed running total. -/
def applyUpdateData (s : Selection) (u : UpdateRec) (run : ℚ) : Selection :=
  { s with
    country := u.country
    meeting := u.meeting
    result := some u.result
    hasResult := true
    winBsp := some u.winBsp
    winPL := some u.winPL
    runningWinPL := some run }

/-- The single ascending pass of phase 6 over one system's ledger: the
accumulator starts at `0` and adds, for every row, the updated `winPL` when
the row is in the updates map and the stored `winPL || 0` otherwise; a row
produces a write when it is updated, or when some earlier row of the pass
was (`hasEncounteredUpdate`). -/
def recomputeGo (ups : List UpdateRec) : List Selection → ℚ → Bool → List Selection
  | [], _, _ => []
  | s :: rest, run, enc =>
    match updLookup ups s.id with
    | some u =>
      applyUpdateData s u (run + u.winPL) :: recomputeGo ups rest (run + u.winPL) true
    | none =>
      if enc then
        { s with runningWinPL := some (run + s.winPL.getD 0) } ::
          recomputeGo ups rest (run + s.winPL.getD 0) enc
      else recomputeGo ups rest (run + s.winPL.getD 0) enc

/-- Full per-system recompute of phase 6 (`src/unnamed/part_014` lines
761-830). -/
def recomputeSystem (sysSels : List Selection) (ups : List UpdateRec) : List Selection :=
  recomputeGo ups sysSels 0 false

/-- Lookup of a rewritten document among the collected bulk writes. -/
def lookupNew (news : List Selection) (id : Nat) : Option Selection :=
  lastMatch (fun t => decide (t.id = id)) news

/-- Applies the collected `bulkWrite` operations: every document is replaced
by its rewritten version when one exists and kept unchanged otherwise. -/
def applyBulk (L news : List Selection) : List Selection :=
  L.map (fun s => (lookupNew news s.id).getD s)

/-- The updates a settlement batch collects against a ledger. -/
def batchUps (L : List Selection) (feed : List FeedRow) : List UpdateRec :=
  collectUpdates (candidatesOf L feed) feed

/-- One system's slice of the collected updates (the `updatesBySystem`
grouping of phase 6). -/
def sysUps (L : List Selection) (feed : List FeedRow) (sid : Nat) : List UpdateRec :=
  (batchUps L feed).filter (fun u => decide (u.systemId = sid))

/-- One system's full ledger ordered by `rowOrder` (the per-system query of
phase 6). -/
def sysSorted (L : List Selection) (sid : Nat) : List Selection :=
  sortByRowOrder (L.filter (fun t => decide (t.systemId = sid)))

/-- The settlement ingestion of `src/unnamed/part_014` (`uploadResultsFromCSV`),
modelled from the parsed feed onward: select candidates (phase 2), build the
key map and collect updates (phases 3-4), group the updates by system and
recompute each such system's running totals in one ascending pass (phase 6),
and apply the resulting bulk writes (phase 7). -/
def uploadResultsFromCSV (L : List Selection) (feed : List FeedRow) : List Selection :=
  let news := ((((batchUps L feed).map (fun u => u.systemId)).dedup).map (fun sid =>
    recomputeSystem (sysSorted L sid) (sysUps L feed sid))).flatten
  applyBulk L news

/-- Phase 5 of `src/unnamed/part_014`: the selections reported as unmatched,
namely the key-map entries never hit by any feed row.  Entries are the
candidates after last-wins key deduplication. -/
def unmatchedSelectionsOf (L : List Selection) (feed : List FeedRow) : List Selection :=
  let cands := candidatesOf L feed
  let entries := cands.foldl (fun acc s =>
    acc.filter (fun t => !(selKey t = selKey s)) ++ [s]) []
  entries.filter (fun s => !(feed.any (fun r =>
    !(r.dateISO = "" || r.time = "" || r.horse = "") && decide (feedKey r = selKey s))))

/-- The subsequent-row walk shared verbatim by `updateSelectionResults` and
`deleteSelection` in `src/controllers/selectionController.js`: accumulate
`winPL || 0` into the running win total; accumulate `placePL` into the place
total when set, recovering the place total from a fresh `$lte`-query over
`ctx` when the accumulator is still null; write `runningWinPL` always and
`runningPlacePL` only when the place accumulator is non-null. -/
def walkSubsequent (ctx : List Selection) (sys : Nat) :
    List Selection → ℚ → Option ℚ → List Selection
  | [], _, _ => []
  | t :: rest, runW, runP =>
    let runW2 := runW + t.winPL.getD 0
    let runP2 : Option ℚ :=
      match t.placePL with
      | none => runP
      | some p =>
        match runP with
        | some q => some (q + p)
        | none => some (placeRefetch ctx sys t.rowOrder)
    let t2 := { t with
      runningWinPL := some runW2
      runningPlacePL := (match runP2 with | some q => some q | none => t.runningPlacePL) }
    t2 :: walkSubsequent ctx sys rest runW2 runP2

/-- One step of the place accumulator of the subsequent-row walk, split out
of `walkSubsequent` for the statements of its unfolding lemmas. -/
def walkPlaceStep (ctx : List Selection) (sys : Nat) (runP : Option ℚ)
    (t : Selection) : Option ℚ :=
  match t.placePL with
  | none => runP
  | some p =>
    match runP with
    | some q => some (q + p)
    | none => some (placeRefetch ctx sys t.rowOrder)

/-- The administrative result edit of `src/controllers/selectionController.js`
(`updateSelectionResults`, lines 1292-1451): compute `winPL`/`placePL`,
derive the edited row's running totals from the `$lte`-query that excludes
the row itself, write the row, then walk every later row of the system.
The JS distinction between a `placeBsp` that is absent and one that is
explicitly `null` is collapsed into `Option` (both skip the place write). -/
def updateSelectionResults (L : List Selection) (id : Nat) (result : RaceResult)
    (winBsp : ℚ) (placeBsp : Option ℚ) : List Selection :=
  match getById L id with
  | none => L
  | some sel =>
    let winPL := calculateWinPL result winBsp
    let placePL : Option ℚ :=
      match placeBsp with
      | some pb => some (calculatePlacePL result (some pb))
      | none => if result = .LOST then some (98 / 100) else none
    let previous := sortByRowOrder (L.filter (fun t =>
      decide (t.systemId = sel.systemId) && decide (t.rowOrder ≤ sel.rowOrder) &&
        !(t.id = id)))
    let runW := sumWin previous + winPL
    let runP : Option ℚ := placePL.map (fun p => sumPlaceAll previous + p)
    let sel2 := { sel with
      result := some result
      winBsp := some winBsp
      winPL := some winPL
      runningWinPL := some runW
      hasResult := true
      placeBsp := (match placeBsp with | some pb => some pb | none => sel.placeBsp)
      placePL := (match placePL with | some p => some p | none => sel.placePL)
      runningPlacePL := (match runP with | some q => some q | none => sel.runningPlacePL) }
    let L1 := L.map (fun t => if t.id = id then sel2 else t)
    let subs := sortByRowOrder (L1.filter (fun t =>
      decide (t.systemId = sel.systemId) && decide (sel.rowOrder < t.rowOrder)))
    applyBulk L1 (walkSubsequent L1 sel.systemId subs runW runP)

/-- The single-row deletion of `src/controllers/selectionController.js`
(`deleteSelection`, lines 1097-1206): delete the document; when it had a
result, walk every later row of its system reseeding the win total from the
rows before the deleted position.  The place seed follows the source guard
`previousPlacePL > 0 || deletedPlacePL !== null`: since `placePL` is never
stored as a literal `null` (it is either a number or absent, and in JS
`undefined !== null` holds), that guard is always true, so the seed is
always the non-null previous place sum. -/
def deleteSelection (L : List Selection) (id : Nat) : List Selection :=
  match getById L id with
  | none => L
  | some sel =>
    let L1 := L.filter (fun t => !(t.id = id))
    if sel.hasResult = false then L1
    else
      let previous := sortByRowOrder (L1.filter (fun t =>
        decide (t.systemId = sel.systemId) && decide (t.rowOrder < sel.rowOrder)))
      let subs := sortByRowOrder (L1.filter (fun t =>
        decide (t.systemId = sel.systemId) && decide (sel.rowOrder < t.rowOrder)))
      applyBulk L1 (walkSubsequent L1 sel.systemId subs (sumWin previous)
        (some (sumPlaceSome previous)))

/-- Input of a selection-creation request after date conversion; an invalid
or missing date is modelled as `dateISO = ""`. -/
structure NewSelectionInput where
  systemId : Nat
  dateISO : String
  country : Option String
  meeting : Option String
  time : String
  horse : String
deriving DecidableEq, Repr

/-- The `findOne().sort({ rowOrder: -1 })` maximum; `0` when the system has
no rows, so that the first created row gets `rowOrder 1` as in the source. -/
def maxRowOrder (L : List Selection) (sys : Nat) : Nat :=
  (L.filter (fun s => decide (s.systemId = sys))).foldl (fun m s => max m s.rowOrder) 0

/-- Validation shared by the creation endpoints: required fields present and
the referenced system exists. -/
def validNewSelection (systems : List Nat) (inp : NewSelectionInput) : Bool :=
  decide (inp.systemId ∈ systems) && !(inp.dateISO = "") && !(inp.horse = "")

/-- The document created for a new selection. -/
def newSelRecord (inp : NewSelectionInput) (newId ro : Nat) : Selection :=
  { id := newId
    systemId := inp.systemId
    dateISO := inp.dateISO
    time := inp.time
    horse := inp.horse
    country := inp.country
    meeting := inp.meeting
    rowOrder := ro
    hasResult := false
    result := none
    winBsp := none
    winPL := none
    runningWinPL := none
    placeBsp := none
    placePL := none
    runningPlacePL := none }

/-- Single-selection creation (`createSelection`, lines 291-366 of the
controller): validate, then insert with
`rowOrder = max(existing rowOrder for systemId) + 1` (`1` when none). -/
def createSelection (systems : List Nat) (L : List Selection)
    (inp : NewSelectionInput) (newId : Nat) : List Selection :=
  if validNewSelection systems inp then
    L ++ [newSelRecord inp newId (maxRowOrder L inp.systemId + 1)]
  else L

/-- One iteration of `createBulkSelections` (lines 921-1030 of the
controller), carrying the `systemRowOrders` counter map: a missing counter
(and, through the JS falsy test, a zero counter) is seeded from the current
maximum, then incremented; invalid items are skipped. -/
def createBulkStep (systems : List Nat) (st : List Selection × List (Nat × Nat))
    (item : NewSelectionInput × Nat) : List Selection × List (Nat × Nat) :=
  let inp := item.1
  if validNewSelection systems inp then
    let base :=
      match (st.2.foldl (fun acc p => if p.1 = inp.systemId then some p.2 else acc) none) with
      | some c => if c = 0 then maxRowOrder st.1 inp.systemId else c
      | none => maxRowOrder st.1 inp.systemId
    (st.1 ++ [newSelRecord inp item.2 (base + 1)],
      st.2.filter (fun p => !(p.1 = inp.systemId)) ++ [(inp.systemId, base + 1)])
  else st

/-- Bulk creation: fold the step over the submitted items. -/
def createBulkSelections (systems : List Nat) (L : List Selection)
    (items : List (NewSelectionInput × Nat)) : List Selection :=
  (items.foldl (createBulkStep systems) (L, [])).1

/-- One parsed row of the selections-upload CSV (date and time already split
from the `DD/MM/YYYY HH:MM` cell; a parse failure is modelled as an empty
field). -/
structure CsvSelectionRow where
  dateISO : String
  time : String
  horse : String
  meeting : Option String
deriving DecidableEq, Repr

/-- CSV selection upload (`uploadSelectionsFromCSV`, lines 756-916 of the
controller): seed `currentRowOrder` from the system's maximum once, then
append each valid row with the incremented counter. -/
def uploadSelectionsFromCSV (systems : List Nat) (L : List Selection) (sys : Nat)
    (rows : List (CsvSelectionRow × Nat)) : List Selection :=
  if decide (sys ∈ systems) then
    (rows.foldl (fun st item =>
      let r := item.1
      if r.dateISO = "" || r.time = "" || r.horse = "" then st
      else
        (st.1 ++ [newSelRecord ⟨sys, r.dateISO, none, r.meeting, r.time, r.horse⟩
          item.2 (st.2 + 1)], st.2 + 1)) (L, maxRowOrder L sys)).1
  else L

/-- Filter of the bulk delete endpoint; `startDate`/`endDate` compare the
stored date, modelled by lexicographic comparison of the ISO strings (which
agrees with the date order). -/
structure DeleteQuery where
  systemId : Option Nat
  dateISO : Option String
  startDate : Option String
  endDate : Option String
deriving DecidableEq, Repr

/-- Whether a selection matches the bulk delete filter. -/
def matchesQuery (q : DeleteQuery) (s : Selection) : Bool :=
  (match q.systemId with | some v => decide (s.systemId = v) | none => true) &&
  (match q.dateISO with | some v => decide (s.dateISO = v) | none => true) &&
  (match q.startDate with | some v => decide (v ≤ s.dateISO) | none => true) &&
  (match q.endDate with | some v => decide (s.dateISO ≤ v) | none => true)

/-- The bulk delete endpoint (`deleteSelections`, lines 1456-1491 of the
controller): refuse an empty filter, otherwise `deleteMany` the matching
documents; no other document is written. -/
def deleteSelections (L : List Selection) (q : DeleteQuery) : List Selection :=
  if q.systemId = none ∧ q.dateISO = none ∧ q.startDate = none ∧ q.endDate = none then L
  else L.filter (fun s => !matchesQuery q s)

/-- The effective `winPL` of a row during the phase-6 pass: the updated
value when the row is in the updates map, the stored `winPL || 0`
otherwise. -/
def effW (ups : List UpdateRec) (s : Selection) : ℚ :=
  match updLookup ups s.id with
  | some u => u.winPL
  | none => s.winPL.getD 0

/-- Prefix sum of effective `winPL` over a system up to a `rowOrder`: the
value the phase-6 accumulator holds right after passing a row. -/
def effPrefixW (L : List Selection) (ups : List UpdateRec) (s : Selection) : ℚ :=
  ((L.filter (fun t => decide (t.systemId = s.systemId) &&
    decide (t.rowOrder ≤ s.rowOrder))).map (effW ups)).sum

/-- Whether some strictly earlier row of the same system is updated in this
batch: the `hasEncounteredUpdate` flag of phase 6 at the moment a row is
visited. -/
def encCond (L : List Selection) (ups : List UpdateRec) (s : Selection) : Bool :=
  (L.filter (fun t => decide (t.systemId = s.systemId) &&
    decide (t.rowOrder < s.rowOrder))).any (fun t => (updLookup ups t.id).isSome)

/-- Order-free description of what the settlement batch does to one row,
proved below to agree with `uploadResultsFromCSV` on ledgers with unique ids
and per-system unique row orders: an updated row receives the update data
and the effective prefix sum; a row after some updated row of its system
receives just the recomputed running total; every other row is untouched. -/
def uploadStep (L : List Selection) (feed : List FeedRow) (s : Selection) : Selection :=
  match updLookup (batchUps L feed) s.id with
  | some u => applyUpdateData s u (effPrefixW L (batchUps L feed) s)
  | none =>
    if encCond L (batchUps L feed) s then
      { s with runningWinPL := some (effPrefixW L (batchUps L feed) s) }
    else s

/-! Generic facts about the last-match fold that models `Map.get` after a
sequence of `Map.set` calls. -/

theorem getLast?_cons_form {α : Type} (a : α) (l : List α) :
    (a :: l).getLast? = (match l.getLast? with | some v => some v | none => some a) := by
  induction l with
  | nil => rfl
  | cons b t ih =>
    rw [List.getLast?_cons_cons]
    cases h : (b :: t).getLast? with
    | none => simp [List.getLast?] at h
    | some v => rfl

theorem getLast?_mem_self {α : Type} {l : List α} {a : α} (h : l.getLast? = some a) :
    a ∈ l := by
  induction l with
  | nil => simp [List.getLast?] at h
  | cons b t ih =>
    rw [getLast?_cons_form] at h
    cases ht : t.getLast? with
    | none => rw [ht] at h; cases h; exact List.mem_cons_self a t
    | some v => rw [ht] at h; cases h; exact List.mem_cons_of_mem b (ih ht)

theorem lastMatch_go {q : Type} (p : q → Bool) (l : List q) (acc : Option q) :
    l.foldl (fun a u => if p u then some u else a) acc =
      (match (l.filter p).getLast? with
        | some u => some u
        | none => acc) := by
  induction l generalizing acc with
  | nil => rfl
  | cons a t ih =>
    rw [List.foldl_cons, ih]
    cases h : p a
    · have hf : (a :: t).filter p = t.filter p := by simp [List.filter_cons, h]
      rw [hf]
      cases ht : (t.filter p).getLast? <;> simp [h]
    · have hf : (a :: t).filter p = a :: t.filter p := by simp [List.filter_cons, h]
      rw [hf, getLast?_cons_form]
      cases ht : (t.filter p).getLast? <;> simp [h]

theorem lastMatch_eq {q : Type} (p : q → Bool) (l : List q) :
    lastMatch p l = (l.filter p).getLast? := by
  unfold lastMatch
  rw [lastMatch_go]
  cases h : (l.filter p).getLast? <;> rfl

theorem lastMatch_none {q : Type} (p : q → Bool) (l : List q)
    (h : ∀ u ∈ l, p u = false) : lastMatch p l = none := by
  rw [lastMatch_eq]
  have he : l.filter p = [] := by
    rw [List.filter_eq_nil_iff]
    intro u hu
    simp [h u hu]
  rw [he]
  rfl

theorem lastMatch_mem {q : Type} {p : q → Bool} {l : List q} {x : q}
    (h : lastMatch p l = some x) : x ∈ l ∧ p x = true := by
  rw [lastMatch_eq] at h
  have hv : x ∈ l.filter p := getLast?_mem_self h
  exact ⟨List.mem_of_mem_filter hv, List.of_mem_filter hv⟩

theorem lastMatch_isSome {q : Type} (p : q → Bool) (l : List q) (x : q)
    (hx : x ∈ l) (hp : p x = true) :
    ∃ y, lastMatch p l = some y ∧ y ∈ l ∧ p y = true := by
  cases h : lastMatch p l with
  | some y => exact ⟨y, rfl, lastMatch_mem h⟩
  | none =>
    exfalso
    rw [lastMatch_eq] at h
    have he : l.filter p = [] := List.getLast?_eq_none_iff.mp h
    have hmem : x ∈ l.filter p := List.mem_filter.mpr ⟨hx, hp⟩
    rw [he] at hmem
    exact absurd hmem (List.not_mem_nil x)

theorem lastMatch_append {q : Type} (p : q → Bool) (l₁ l₂ : List q) :
    lastMatch p (l₁ ++ l₂) =
      (match lastMatch p l₂ with
        | some u => some u
        | none => lastMatch p l₁) := by
  rw [lastMatch_eq, lastMatch_eq, lastMatch_eq, List.filter_append, List.getLast?_append]
  cases h : (l₂.filter p).getLast? <;> simp

theorem lastMatch_cons {q : Type} (p : q → Bool) (a : q) (l : List q) :
    lastMatch p (a :: l) =
      (match lastMatch p l with
        | some u => some u
        | none => if p a then some a else none) := by
  have h := lastMatch_append p [a] l
  rw [List.singleton_append] at h
  rw [h]
  cases hl : lastMatch p l
  · simp only []
    rw [lastMatch_eq]
    cases hp : p a <;> simp [List.filter, hp, List.getLast?]
  · rfl

/-! Specialisations of the last-match lemmas to the lookups of the model,
plus facts about `sortByRowOrder` and the sums. -/

theorem updLookup_mem {ups : List UpdateRec} {id : Nat} {u : UpdateRec}
    (h : updLookup ups id = some u) : u ∈ ups ∧ u.selectionId = id := by
  have := lastMatch_mem h
  exact ⟨this.1, by simpa using this.2⟩

theorem updLookup_none {ups : List UpdateRec} {id : Nat}
    (h : ∀ u ∈ ups, ¬ u.selectionId = id) : updLookup ups id = none := by
  exact lastMatch_none _ ups (fun u hu => by simpa using h u hu)

theorem updLookup_isSome {ups : List UpdateRec} {id : Nat} {u : UpdateRec}
    (hu : u ∈ ups) (hid : u.selectionId = id) :
    ∃ v, updLookup ups id = some v ∧ v ∈ ups ∧ v.selectionId = id := by
  obtain ⟨y, hy, hym, hyp⟩ := lastMatch_isSome (fun u => decide (u.selectionId = id)) ups u hu (by simpa using hid)
  exact ⟨y, hy, hym, by simpa using hyp⟩

theorem lookupNew_mem {news : List Selection} {id : Nat} {t : Selection}
    (h : lookupNew news id = some t) : t ∈ news ∧ t.id = id := by
  have := lastMatch_mem h
  exact ⟨this.1, by simpa using this.2⟩

theorem lookupNew_none {news : List Selection} {id : Nat}
    (h : ∀ t ∈ news, ¬ t.id = id) : lookupNew news id = none := by
  exact lastMatch_none _ news (fun t ht => by simpa using h t ht)

theorem lookupNew_cons_none {a : Selection} {news : List Selection} {id : Nat}
    (h : lookupNew news id = none) :
    lookupNew (a :: news) id = if a.id = id then some a else none := by
  unfold lookupNew at h ⊢
  rw [lastMatch_cons, h]
  by_cases ha : a.id = id <;> simp [ha]

theorem lookupNew_cons_some {a : Selection} {news : List Selection} {id : Nat} {u : Selection}
    (h : lookupNew news id = some u) :
    lookupNew (a :: news) id = some u := by
  unfold lookupNew at h ⊢
  rw [lastMatch_cons, h]

theorem lookupNew_append_none {l₁ l₂ : List Selection} {id : Nat}
    (h : lookupNew l₂ id = none) :
    lookupNew (l₁ ++ l₂) id = lookupNew l₁ id := by
  unfold lookupNew at h ⊢
  rw [lastMatch_append, h]

theorem lookupNew_append_some {l₁ l₂ : List Selection} {id : Nat} {u : Selection}
    (h : lookupNew l₂ id = some u) :
    lookupNew (l₁ ++ l₂) id = some u := by
  unfold lookupNew at h ⊢
  rw [lastMatch_append, h]

theorem getById_mem {L : List Selection} {id : Nat} {s : Selection}
    (h : getById L id = some s) : s ∈ L ∧ s.id = id := by
  have := lastMatch_mem h
  exact ⟨this.1, by simpa using this.2⟩

theorem getById_isSome {L : List Selection} {id : Nat} {s : Selection}
    (hs : s ∈ L) (hid : s.id = id) :
    ∃ v, getById L id = some v ∧ v ∈ L ∧ v.id = id := by
  obtain ⟨y, hy, hym, hyp⟩ := lastMatch_isSome (fun t => decide (t.id = id)) L s hs (by simpa using hid)
  exact ⟨y, hy, hym, by simpa using hyp⟩

theorem selMapLookup_mem {cands : List Selection} {k : String} {c : Selection}
    (h : selMapLookup cands k = some c) : c ∈ cands ∧ selKey c = k := by
  have := lastMatch_mem h
  exact ⟨this.1, by simpa using this.2⟩

theorem selMapLookup_isSome {cands : List Selection} {k : String} {c : Selection}
    (hc : c ∈ cands) (hk : selKey c = k) :
    ∃ v, selMapLookup cands k = some v ∧ v ∈ cands ∧ selKey v = k := by
  obtain ⟨y, hy, hym, hyp⟩ := lastMatch_isSome (fun s => decide (selKey s = k)) cands c hc (by simpa using hk)
  exact ⟨y, hy, hym, by simpa using hyp⟩

/-! Facts about `sortByRowOrder`. -/

theorem sortByRowOrder_perm (l : List Selection) : (sortByRowOrder l).Perm l :=
  List.perm_insertionSort roLE l

theorem mem_sortByRowOrder {l : List Selection} {a : Selection} :
    a ∈ sortByRowOrder l ↔ a ∈ l :=
  (sortByRowOrder_perm l).mem_iff

theorem sortByRowOrder_sorted (l : List Selection) :
    List.Sorted roLE (sortByRowOrder l) :=
  List.sorted_insertionSort roLE l

/-- Row orders pairwise distinct plus sortedness gives a strictly increasing
sorted list. -/
theorem sortByRowOrder_pairwise_lt {l : List Selection}
    (h : ((l.map (fun s => s.rowOrder)).Nodup)) :
    List.Pairwise (fun a b => a.rowOrder < b.rowOrder) (sortByRowOrder l) := by
  have hch : ((sortByRowOrder l).map (fun s => s.rowOrder)).Nodup :=
    (((sortByRowOrder_perm l).map (fun s => s.rowOrder)).nodup_iff).mpr h
  have hne : List.Pairwise (fun a b => a.rowOrder ≠ b.rowOrder) (sortByRowOrder l) :=
    (List.pairwise_map).mp hch
  have hle : List.Pairwise roLE (sortByRowOrder l) := sortByRowOrder_sorted l
  exact (hle.and hne).imp (fun h2 => Nat.lt_of_le_of_ne h2.1 h2.2)

/-! Sum helpers. -/

theorem sumWin_append (l₁ l₂ : List Selection) :
    sumWin (l₁ ++ l₂) = sumWin l₁ + sumWin l₂ := by
  unfold sumWin
  rw [List.map_append, List.sum_append]

theorem sumWin_cons (a : Selection) (l : List Selection) :
    sumWin (a :: l) = a.winPL.getD 0 + sumWin l := by
  unfold sumWin
  rw [List.map_cons, List.sum_cons]

theorem sumWin_singleton (a : Selection) : sumWin [a] = a.winPL.getD 0 := by
  rw [sumWin_cons]
  unfold sumWin
  simp

theorem sumWin_perm {l₁ l₂ : List Selection} (h : l₁.Perm l₂) :
    sumWin l₁ = sumWin l₂ := by
  unfold sumWin
  exact (h.map (fun s => s.winPL.getD 0)).sum_eq

/-- Splitting a sum of `winPL` by a decidable predicate. -/
theorem sumWin_filter_split (l : List Selection) (p : Selection → Bool) :
    sumWin l = sumWin (l.filter p) + sumWin (l.filter (fun s => !(p s))) := by
  induction l with
  | nil => simp [sumWin]
  | cons a t ih =>
    rw [sumWin_cons, ih, List.filter_cons, List.filter_cons]
    cases h : p a <;> simp [sumWin_cons] <;> ring

/-! Structure of the collected updates and of the phase-6 pass. -/

theorem candidatesOf_mem {L : List Selection} {feed : List FeedRow} {c : Selection}
    (h : c ∈ candidatesOf L feed) : c ∈ L ∧ c.hasResult = false := by
  unfold candidatesOf at h
  have h2 := List.mem_filter.mp h
  refine ⟨h2.1, ?_⟩
  have := h2.2
  simp only [Bool.and_eq_true, Bool.not_eq_true'] at this
  exact this.2

theorem idsNodup_inj {L : List Selection} (h : idsNodup L) {a b : Selection}
    (ha : a ∈ L) (hb : b ∈ L) (hid : a.id = b.id) : a = b :=
  List.inj_on_of_nodup_map h ha hb hid

theorem collectUpdates_mem {cands : List Selection} {feed : List FeedRow} {u : UpdateRec}
    (h : u ∈ collectUpdates cands feed) :
    ∃ c ∈ cands, ∃ r ∈ feed,
      selMapLookup cands (feedKey r) = some c ∧ c.hasResult = false ∧
      validSP r.betfairSP = true ∧ u = mkUpdate c r (r.betfairSP.getD 0) := by
  unfold collectUpdates at h
  suffices H : ∀ (fd : List FeedRow) (acc : List UpdateRec),
      u ∈ fd.foldl (fun acc r =>
        if r.dateISO = "" || r.time = "" || r.horse = "" then acc
        else
          match selMapLookup cands (feedKey r) with
          | none => acc
          | some s =>
            if s.hasResult then acc
            else if validSP r.betfairSP then acc ++ [mkUpdate s r (r.betfairSP.getD 0)]
            else acc) acc →
      (∀ r0 ∈ fd, r0 ∈ feed) →
      u ∈ acc ∨ ∃ c ∈ cands, ∃ r ∈ feed,
        selMapLookup cands (feedKey r) = some c ∧ c.hasResult = false ∧
        validSP r.betfairSP = true ∧ u = mkUpdate c r (r.betfairSP.getD 0) by
    rcases H feed [] h (fun r0 hr0 => hr0) with h1 | h2
    · exact absurd h1 (List.not_mem_nil u)
    · exact h2
  intro fd
  induction fd with
  | nil => intro acc h0 _; exact Or.inl h0
  | cons r fd ih =>
    intro acc h0 hsub
    rw [List.foldl_cons] at h0
    have hsub2 : ∀ r0 ∈ fd, r0 ∈ feed := fun r0 hr0 => hsub r0 (List.mem_cons_of_mem r hr0)
    rcases ih _ h0 hsub2 with h1 | h2
    · split at h1
      · exact Or.inl h1
      · split at h1
        · exact Or.inl h1
        · rename_i c hlk
          split at h1
          · exact Or.inl h1
          · split at h1
            · rcases List.mem_append.mp h1 with h3 | h3
              · exact Or.inl h3
              · rcases List.mem_singleton.mp h3 with rfl
                rename_i hres hsp
                exact Or.inr ⟨c, (selMapLookup_mem hlk).1, r,
                  hsub r (List.mem_cons_self r fd), hlk, by simpa using hres, hsp, rfl⟩
            · exact Or.inl h1
    · exact Or.inr h2

theorem mkUpdate_selectionId (c : Selection) (r : FeedRow) (sp : ℚ) :
    (mkUpdate c r sp).selectionId = c.id := rfl

theorem mkUpdate_systemId (c : Selection) (r : FeedRow) (sp : ℚ) :
    (mkUpdate c r sp).systemId = c.systemId := rfl

/-- Every collected update points at a candidate and carries its system. -/
theorem collectUpdates_source {L : List Selection} {feed : List FeedRow} {u : UpdateRec}
    (h : u ∈ collectUpdates (candidatesOf L feed) feed) :
    ∃ c ∈ candidatesOf L feed, u.selectionId = c.id ∧ u.systemId = c.systemId := by
  obtain ⟨c, hc, r, _, _, _, _, hu⟩ := collectUpdates_mem h
  exact ⟨c, hc, by rw [hu]; rfl, by rw [hu]; rfl⟩

theorem applyUpdateData_id (s : Selection) (u : UpdateRec) (r : ℚ) :
    (applyUpdateData s u r).id = s.id := rfl

/-- Every element of the phase-6 output carries the id of some input row. -/
theorem recomputeGo_ids {ups : List UpdateRec} :
    ∀ (l : List Selection) (run : ℚ) (enc : Bool) (t : Selection),
      t ∈ recomputeGo ups l run enc → ∃ s ∈ l, t.id = s.id := by
  intro l
  induction l with
  | nil => intro run enc t ht; exact absurd ht (List.not_mem_nil t)
  | cons s rest ih =>
    intro run enc t ht
    unfold recomputeGo at ht
    cases hu : updLookup ups s.id with
    | some u =>
      rw [hu] at ht
      rcases List.mem_cons.mp ht with h1 | h1
      · exact ⟨s, List.mem_cons_self s rest, by rw [h1]; rfl⟩
      · obtain ⟨s2, hs2, hid⟩ := ih _ _ t h1
        exact ⟨s2, List.mem_cons_of_mem s hs2, hid⟩
    | none =>
      rw [hu] at ht
      cases henc : enc with
      | true =>
        rw [henc] at ht
        rw [if_pos rfl] at ht
        rcases List.mem_cons.mp ht with h1 | h1
        · exact ⟨s, List.mem_cons_self s rest, by rw [h1]⟩
        · obtain ⟨s2, hs2, hid⟩ := ih _ _ t h1
          exact ⟨s2, List.mem_cons_of_mem s hs2, hid⟩
      | false =>
        rw [henc] at ht
        rw [if_neg (by simp)] at ht
        obtain ⟨s2, hs2, hid⟩ := ih _ _ t ht
        exact ⟨s2, List.mem_cons_of_mem s hs2, hid⟩

theorem lookupNew_cons_ne {a : Selection} {news : List Selection} {id : Nat}
    (h : ¬ a.id = id) : lookupNew (a :: news) id = lookupNew news id := by
  cases hn : lookupNew news id with
  | some u => exact lookupNew_cons_some hn
  | none => rw [lookupNew_cons_none hn, if_neg h]

theorem recomputeGo_lookup_notmem {ups : List UpdateRec} {l : List Selection}
    {run : ℚ} {enc : Bool} {id : Nat} (h : ∀ s ∈ l, ¬ s.id = id) :
    lookupNew (recomputeGo ups l run enc) id = none := by
  apply lookupNew_none
  intro t ht
  obtain ⟨s, hs, hid⟩ := recomputeGo_ids l run enc t ht
  rw [hid]
  exact h s hs

theorem effW_updated {ups : List UpdateRec} {s : Selection} {u : UpdateRec}
    (h : updLookup ups s.id = some u) : effW ups s = u.winPL := by
  unfold effW
  rw [h]

theorem effW_skipped {ups : List UpdateRec} {s : Selection}
    (h : updLookup ups s.id = none) : effW ups s = s.winPL.getD 0 := by
  unfold effW
  rw [h]

/-- Unfolding equation of the phase-6 pass at an updated head. -/
theorem recomputeGo_cons_updated {ups : List UpdateRec} {s : Selection} {u : UpdateRec}
    (rest : List Selection) (run : ℚ) (enc : Bool) (h : updLookup ups s.id = some u) :
    recomputeGo ups (s :: rest) run enc =
      applyUpdateData s u (run + u.winPL) :: recomputeGo ups rest (run + u.winPL) true := by
  conv_lhs => unfold recomputeGo
  rw [h]

/-- Unfolding equation of the phase-6 pass at a skipped head after an update
was encountered. -/
theorem recomputeGo_cons_enc {ups : List UpdateRec} {s : Selection}
    (rest : List Selection) (run : ℚ) (h : updLookup ups s.id = none) :
    recomputeGo ups (s :: rest) run true =
      { s with runningWinPL := some (run + s.winPL.getD 0) } ::
        recomputeGo ups rest (run + s.winPL.getD 0) true := by
  conv_lhs => unfold recomputeGo
  rw [h]
  rfl

/-- Unfolding equation of the phase-6 pass at a skipped head before any
update was encountered. -/
theorem recomputeGo_cons_skip {ups : List UpdateRec} {s : Selection}
    (rest : List Selection) (run : ℚ) (h : updLookup ups s.id = none) :
    recomputeGo ups (s :: rest) run false =
      recomputeGo ups rest (run + s.winPL.getD 0) false := by
  conv_lhs => unfold recomputeGo
  rw [h]
  rfl

/-- Head id of a nodup-id split list differs from the distinguished
element's id. -/
theorem head_id_ne {a s : Selection} {as2 bs : List Selection}
    (h : ((a :: (as2 ++ s :: bs)).map (fun t => t.id)).Nodup) : ¬ a.id = s.id := by
  rw [List.map_cons, List.nodup_cons] at h
  intro he
  apply h.1
  rw [he]
  exact List.mem_map_of_mem (fun t => t.id) (List.mem_append_right as2 (List.mem_cons_self s bs))

theorem nodup_ids_tail {a : Selection} {l : List Selection}
    (h : ((a :: l).map (fun t => t.id)).Nodup) : (l.map (fun t => t.id)).Nodup := by
  rw [List.map_cons, List.nodup_cons] at h
  exact h.2

theorem nodup_ids_notmem_tail {s : Selection} {bs : List Selection}
    (h : ((s :: bs).map (fun t => t.id)).Nodup) : ∀ b ∈ bs, ¬ b.id = s.id := by
  rw [List.map_cons, List.nodup_cons] at h
  intro b hb he
  exact h.1 (he ▸ List.mem_map_of_mem (fun t => t.id) hb)

theorem recomputeGo_lookup_updated (ups : List UpdateRec) (s : Selection) (u : UpdateRec)
    (bs : List Selection) :
    ∀ (as : List Selection) (run : ℚ) (enc : Bool),
    ((as ++ s :: bs).map (fun t => t.id)).Nodup →
    updLookup ups s.id = some u →
    lookupNew (recomputeGo ups (as ++ s :: bs) run enc) s.id =
      some (applyUpdateData s u (run + ((as ++ [s]).map (effW ups)).sum)) := by
  intro as
  induction as with
  | nil =>
    intro run enc hnd hu
    rw [List.nil_append] at hnd ⊢
    rw [recomputeGo_cons_updated bs run enc hu]
    have htail : lookupNew (recomputeGo ups bs (run + u.winPL) true) s.id = none :=
      recomputeGo_lookup_notmem (nodup_ids_notmem_tail hnd)
    rw [lookupNew_cons_none htail, applyUpdateData_id, if_pos rfl]
    have hv : run + ((([] : List Selection) ++ [s]).map (effW ups)).sum = run + u.winPL := by
      rw [List.nil_append, List.map_cons, List.map_nil, List.sum_cons, List.sum_nil,
        effW_updated hu, add_zero]
    rw [hv]
  | cons a as2 ih =>
    intro run enc hnd hu
    rw [List.cons_append] at hnd ⊢
    have hane : ¬ a.id = s.id := head_id_ne hnd
    have hnd2 := nodup_ids_tail hnd
    have hsum : ∀ w : ℚ, effW ups a = w →
        (run + w) + ((as2 ++ [s]).map (effW ups)).sum =
          run + (((a :: as2) ++ [s]).map (effW ups)).sum := by
      intro w hw
      rw [List.cons_append, List.map_cons, List.sum_cons, hw, add_assoc]
    cases ha : updLookup ups a.id with
    | some ua =>
      rw [recomputeGo_cons_updated _ run enc ha]
      rw [lookupNew_cons_ne (by rw [applyUpdateData_id]; exact hane)]
      rw [ih (run + ua.winPL) true hnd2 hu]
      rw [hsum ua.winPL (effW_updated ha)]
    | none =>
      cases enc with
      | true =>
        rw [recomputeGo_cons_enc _ run ha]
        rw [lookupNew_cons_ne (show ¬ ({ a with
          runningWinPL := some (run + a.winPL.getD 0) }).id = s.id from hane)]
        rw [ih (run + a.winPL.getD 0) true hnd2 hu]
        rw [hsum (a.winPL.getD 0) (effW_skipped ha)]
      | false =>
        rw [recomputeGo_cons_skip _ run ha]
        rw [ih (run + a.winPL.getD 0) false hnd2 hu]
        rw [hsum (a.winPL.getD 0) (effW_skipped ha)]

theorem recomputeGo_lookup_enc (ups : List UpdateRec) (s : Selection)
    (bs : List Selection) :
    ∀ (as : List Selection) (run : ℚ) (enc : Bool),
    ((as ++ s :: bs).map (fun t => t.id)).Nodup →
    updLookup ups s.id = none →
    (enc || as.any (fun t => (updLookup ups t.id).isSome)) = true →
    lookupNew (recomputeGo ups (as ++ s :: bs) run enc) s.id =
      some { s with runningWinPL := some (run + ((as ++ [s]).map (effW ups)).sum) } := by
  intro as
  induction as with
  | nil =>
    intro run enc hnd hu hcond
    rw [List.nil_append] at hnd ⊢
    have henc : enc = true := by simpa using hcond
    rw [henc, recomputeGo_cons_enc bs run hu]
    have htail : lookupNew (recomputeGo ups bs (run + s.winPL.getD 0) true) s.id = none :=
      recomputeGo_lookup_notmem (nodup_ids_notmem_tail hnd)
    have hid : ({ s with runningWinPL := some (run + s.winPL.getD 0) }).id = s.id := rfl
    rw [lookupNew_cons_none htail, hid, if_pos rfl]
    have hv : run + ((([] : List Selection) ++ [s]).map (effW ups)).sum =
        run + s.winPL.getD 0 := by
      rw [List.nil_append, List.map_cons, List.map_nil, List.sum_cons, List.sum_nil,
        effW_skipped hu, add_zero]
    rw [hv]
  | cons a as2 ih =>
    intro run enc hnd hu hcond
    rw [List.cons_append] at hnd ⊢
    have hane : ¬ a.id = s.id := head_id_ne hnd
    have hnd2 := nodup_ids_tail hnd
    have hsum : ∀ w : ℚ, effW ups a = w →
        (run + w) + ((as2 ++ [s]).map (effW ups)).sum =
          run + (((a :: as2) ++ [s]).map (effW ups)).sum := by
      intro w hw
      rw [List.cons_append, List.map_cons, List.sum_cons, hw, add_assoc]
    cases ha : updLookup ups a.id with
    | some ua =>
      rw [recomputeGo_cons_updated _ run enc ha]
      rw [lookupNew_cons_ne (by rw [applyUpdateData_id]; exact hane)]
      rw [ih (run + ua.winPL) true hnd2 hu (by simp)]
      rw [hsum ua.winPL (effW_updated ha)]
    | none =>
      have hcond2 : (enc || as2.any (fun t => (updLookup ups t.id).isSome)) = true := by
        rw [List.any_cons, ha] at hcond
        simpa using hcond
      cases enc with
      | true =>
        rw [recomputeGo_cons_enc _ run ha]
        rw [lookupNew_cons_ne (show ¬ ({ a with
          runningWinPL := some (run + a.winPL.getD 0) }).id = s.id from hane)]
        rw [ih (run + a.winPL.getD 0) true hnd2 hu (by simp)]
        rw [hsum (a.winPL.getD 0) (effW_skipped ha)]
      | false =>
        rw [recomputeGo_cons_skip _ run ha]
        rw [ih (run + a.winPL.getD 0) false hnd2 hu hcond2]
        rw [hsum (a.winPL.getD 0) (effW_skipped ha)]

theorem recomputeGo_lookup_skip (ups : List UpdateRec) (s : Selection)
    (bs : List Selection) :
    ∀ (as : List Selection) (run : ℚ),
    ((as ++ s :: bs).map (fun t => t.id)).Nodup →
    updLookup ups s.id = none →
    as.any (fun t => (updLookup ups t.id).isSome) = false →
    lookupNew (recomputeGo ups (as ++ s :: bs) run false) s.id = none := by
  intro as
  induction as with
  | nil =>
    intro run hnd hu _
    rw [List.nil_append] at hnd ⊢
    rw [recomputeGo_cons_skip bs run hu]
    exact recomputeGo_lookup_notmem (nodup_ids_notmem_tail hnd)
  | cons a as2 ih =>
    intro run hnd hu hany
    rw [List.cons_append] at hnd ⊢
    have hnd2 := nodup_ids_tail hnd
    rw [List.any_cons] at hany
    have ha : updLookup ups a.id = none := by
      cases h2 : updLookup ups a.id with
      | none => rfl
      | some ua => rw [h2] at hany; simp at hany
    have hcond2 : as2.any (fun t => (updLookup ups t.id).isSome) = false := by
      rw [ha] at hany
      simpa using hany
    rw [recomputeGo_cons_skip _ run ha]
    exact ih (run + a.winPL.getD 0) hnd2 hu hcond2

theorem perm_any {q : Type} {l₁ l₂ : List q} (h : l₁.Perm l₂) (p : q → Bool) :
    l₁.any p = l₂.any p := by
  cases h2 : l₂.any p with
  | true =>
    rw [List.any_eq_true] at h2 ⊢
    obtain ⟨x, hx, hp⟩ := h2
    exact ⟨x, h.mem_iff.mpr hx, hp⟩
  | false =>
    rw [List.any_eq_false] at h2 ⊢
    intro x hx
    exact h2 x (h.mem_iff.mp hx)

/-- In a strictly `rowOrder`-increasing list split around an element, the
prefix at or before that element's row order is exactly the left part plus
the element. -/
theorem pairwise_filter_le {as bs : List Selection} {s : Selection}
    (h : List.Pairwise (fun a b => a.rowOrder < b.rowOrder) (as ++ s :: bs)) :
    (as ++ s :: bs).filter (fun t => decide (t.rowOrder ≤ s.rowOrder)) = as ++ [s] := by
  obtain ⟨has, hcons, hcross⟩ := List.pairwise_append.mp h
  have hsbs : ∀ b ∈ bs, s.rowOrder < b.rowOrder := (List.pairwise_cons.mp hcons).1
  rw [List.filter_append]
  have h1 : as.filter (fun t => decide (t.rowOrder ≤ s.rowOrder)) = as := by
    apply List.filter_eq_self.mpr
    intro a ha
    have := hcross a ha s (List.mem_cons_self s bs)
    simpa using Nat.le_of_lt this
  have h2 : (s :: bs).filter (fun t => decide (t.rowOrder ≤ s.rowOrder)) = [s] := by
    rw [List.filter_cons]
    have hs : (decide (s.rowOrder ≤ s.rowOrder)) = true := by simp
    rw [if_pos (by simp)]
    have hb : bs.filter (fun t => decide (t.rowOrder ≤ s.rowOrder)) = [] := by
      rw [List.filter_eq_nil_iff]
      intro b hb
      simpa using Nat.not_le.mpr (hsbs b hb)
    rw [hb]
  rw [h1, h2]

/-- In a strictly `rowOrder`-increasing list split around an element, the
part strictly before that element's row order is exactly the left part. -/
theorem pairwise_filter_lt {as bs : List Selection} {s : Selection}
    (h : List.Pairwise (fun a b => a.rowOrder < b.rowOrder) (as ++ s :: bs)) :
    (as ++ s :: bs).filter (fun t => decide (t.rowOrder < s.rowOrder)) = as := by
  obtain ⟨has, hcons, hcross⟩ := List.pairwise_append.mp h
  have hsbs : ∀ b ∈ bs, s.rowOrder < b.rowOrder := (List.pairwise_cons.mp hcons).1
  rw [List.filter_append]
  have h1 : as.filter (fun t => decide (t.rowOrder < s.rowOrder)) = as := by
    apply List.filter_eq_self.mpr
    intro a ha
    simpa using hcross a ha s (List.mem_cons_self s bs)
  have h2 : (s :: bs).filter (fun t => decide (t.rowOrder < s.rowOrder)) = [] := by
    rw [List.filter_cons]
    rw [if_neg (by simp)]
    rw [List.filter_eq_nil_iff]
    intro b hb
    simpa using Nat.not_lt.mpr (Nat.le_of_lt (hsbs b hb))
  rw [h1, h2, List.append_nil]

/-- The ids of a filtered ledger stay pairwise distinct, also after the
`rowOrder` sort. -/
theorem sorted_filter_ids_nodup {L : List Selection} (hid : idsNodup L)
    (p : Selection → Bool) :
    ((sortByRowOrder (L.filter p)).map (fun t => t.id)).Nodup := by
  have hid2 : (L.map (fun t => t.id)).Nodup := hid
  have h1 : ((L.filter p).map (fun t => t.id)).Nodup :=
    ((List.filter_sublist L).map (fun t => t.id)).nodup hid2
  exact (((sortByRowOrder_perm (L.filter p)).map (fun t => t.id)).nodup_iff).mpr h1

theorem lookupNew_nil (id : Nat) : lookupNew [] id = none := rfl

/-- An update for a ledger member's id always carries that member's system. -/
theorem batchUps_system {L : List Selection} {feed : List FeedRow} (hid : idsNodup L)
    {t : Selection} (ht : t ∈ L) {u : UpdateRec} (hu : u ∈ batchUps L feed)
    (hids : u.selectionId = t.id) : u.systemId = t.systemId := by
  obtain ⟨c, hc, hcid, hcsys⟩ := collectUpdates_source hu
  have hceq : c = t := idsNodup_inj hid (candidatesOf_mem hc).1 ht (by rw [← hcid, hids])
  rw [hcsys, hceq]

/-- For a ledger member, looking its id up in its own system's update slice
is the same as looking it up among all updates. -/
theorem updLookup_sysUps {L : List Selection} {feed : List FeedRow} (hid : idsNodup L)
    {t : Selection} (ht : t ∈ L) {sid : Nat} (hts : t.systemId = sid) :
    updLookup (sysUps L feed sid) t.id = updLookup (batchUps L feed) t.id := by
  unfold sysUps updLookup
  rw [lastMatch_eq, lastMatch_eq, List.filter_filter]
  congr 1
  apply List.filter_congr
  intro u hu
  by_cases hidu : u.selectionId = t.id
  · have := batchUps_system hid ht hu hidu
    simp [hidu, this, hts]
  · simp [hidu]

/-- Lookup inside the recompute output of a foreign system always misses. -/
theorem recomputeSystem_lookup_other {L : List Selection} (hid : idsNodup L)
    {s : Selection} (hs : s ∈ L) {sid2 : Nat} (hne : ¬ sid2 = s.systemId)
    (ups2 : List UpdateRec) :
    lookupNew (recomputeSystem (sysSorted L sid2) ups2) s.id = none := by
  apply lookupNew_none
  intro t ht
  unfold recomputeSystem at ht
  obtain ⟨x, hx, hidx⟩ := recomputeGo_ids _ _ _ t ht
  have hx2 := List.mem_filter.mp ((mem_sortByRowOrder).mp hx)
  intro he
  have hxs : x = s := idsNodup_inj hid hx2.1 hs (by rw [← hidx, he])
  apply hne
  have h3 := hx2.2
  rw [hxs] at h3
  have h4 : s.systemId = sid2 := by simpa using h3
  exact h4.symm

/-- With pairwise distinct ids, the lookup over the concatenated per-system
recompute outputs reduces to the lookup inside the member's own system's
output, or misses entirely when that system is not in the group list. -/
theorem lookupNew_groups {L : List Selection} (hid : idsNodup L) {s : Selection}
    (hs : s ∈ L) (mkups : Nat → List UpdateRec) :
    ∀ (ds : List Nat), ds.Nodup →
    lookupNew ((ds.map (fun sid2 =>
      recomputeSystem (sysSorted L sid2) (mkups sid2))).flatten) s.id =
      (if s.systemId ∈ ds then
        lookupNew (recomputeSystem (sysSorted L s.systemId) (mkups s.systemId)) s.id
      else none) := by
  intro ds
  induction ds with
  | nil =>
    intro _
    rw [List.map_nil, List.flatten_nil, if_neg (List.not_mem_nil s.systemId)]
    exact lookupNew_nil s.id
  | cons d ds2 ih =>
    intro hnb
    rw [List.map_cons, List.flatten_cons]
    have hnb2 : ds2.Nodup := (List.nodup_cons.mp hnb).2
    by_cases hd : s.systemId = d
    · have hnotin : s.systemId ∉ ds2 := by
        rw [hd]
        exact (List.nodup_cons.mp hnb).1
      have hrest : lookupNew ((ds2.map (fun sid2 =>
          recomputeSystem (sysSorted L sid2) (mkups sid2))).flatten) s.id = none := by
        rw [ih hnb2, if_neg hnotin]
      rw [lookupNew_append_none hrest, if_pos (by rw [hd]; exact List.mem_cons_self d ds2)]
      rw [hd]
    · have hmem : (s.systemId ∈ d :: ds2) ↔ (s.systemId ∈ ds2) := by
        constructor
        · intro h
          rcases List.mem_cons.mp h with h1 | h1
          · exact absurd h1 hd
          · exact h1
        · exact List.mem_cons_of_mem d
      have hdne : ¬ d = s.systemId := fun h => hd h.symm
      cases hrest : lookupNew ((ds2.map (fun sid2 =>
          recomputeSystem (sysSorted L sid2) (mkups sid2))).flatten) s.id with
      | some v =>
        rw [lookupNew_append_some hrest]
        rw [ih hnb2] at hrest
        by_cases hin : s.systemId ∈ ds2
        · rw [if_pos hin] at hrest
          rw [if_pos (hmem.mpr hin), hrest]
        · rw [if_neg hin] at hrest
          exact absurd hrest (by simp)
      | none =>
        rw [lookupNew_append_none hrest]
        rw [ih hnb2] at hrest
        rw [recomputeSystem_lookup_other hid hs hdne (mkups d)]
        by_cases hin : s.systemId ∈ ds2
        · rw [if_pos hin] at hrest
          rw [if_pos (hmem.mpr hin), hrest]
        · rw [if_neg (fun h => hin (hmem.mp h))]

theorem any_congr {q : Type} {l : List q} {p p2 : q → Bool}
    (h : ∀ a ∈ l, p a = p2 a) : l.any p = l.any p2 := by
  induction l with
  | nil => rfl
  | cons a t ih =>
    rw [List.any_cons, List.any_cons, h a (List.mem_cons_self a t),
      ih (fun b hb => h b (List.mem_cons_of_mem a hb))]

/-- Translation of the phase-6 accumulator value at a row into the
order-free effective prefix sum. -/
theorem effSum_translate (L : List Selection) (feed : List FeedRow) (hid : idsNodup L)
    (hsys : sysOrdersNodup L) {s : Selection} {as bs : List Selection}
    (hsplit : sysSorted L s.systemId = as ++ s :: bs) :
    ((as ++ [s]).map (effW (sysUps L feed s.systemId))).sum =
      effPrefixW L (batchUps L feed) s := by
  have hplt : List.Pairwise (fun a b => a.rowOrder < b.rowOrder) (as ++ s :: bs) := by
    rw [← hsplit]
    exact sortByRowOrder_pairwise_lt (hsys s.systemId)
  rw [← pairwise_filter_le hplt]
  have hperm : (as ++ s :: bs).Perm
      (L.filter (fun t => decide (t.systemId = s.systemId))) := by
    rw [← hsplit]
    exact sortByRowOrder_perm _
  rw [((hperm.filter (fun t => decide (t.rowOrder ≤ s.rowOrder))).map
    (effW (sysUps L feed s.systemId))).sum_eq]
  rw [List.filter_filter]
  unfold effPrefixW
  have hpred : L.filter (fun t => decide (t.rowOrder ≤ s.rowOrder) &&
      decide (t.systemId = s.systemId)) =
      L.filter (fun t => decide (t.systemId = s.systemId) &&
      decide (t.rowOrder ≤ s.rowOrder)) := by
    apply List.filter_congr
    intro t _
    exact Bool.and_comm _ _
  rw [hpred]
  have hmap : ∀ t ∈ L.filter (fun t => decide (t.systemId = s.systemId) &&
      decide (t.rowOrder ≤ s.rowOrder)),
      effW (sysUps L feed s.systemId) t = effW (batchUps L feed) t := by
    intro t htm
    have ht2 := List.mem_filter.mp htm
    have hts : t.systemId = s.systemId := by
      have h3 := ht2.2
      simp only [Bool.and_eq_true, decide_eq_true_eq] at h3
      exact h3.1
    unfold effW
    rw [updLookup_sysUps hid ht2.1 hts]
  rw [List.map_eq_map_iff.mpr hmap]

/-- Translation of the phase-6 `hasEncounteredUpdate` flag at a row into the
order-free condition `encCond`. -/
theorem encAny_translate (L : List Selection) (feed : List FeedRow) (hid : idsNodup L)
    (hsys : sysOrdersNodup L) {s : Selection} {as bs : List Selection}
    (hsplit : sysSorted L s.systemId = as ++ s :: bs) :
    as.any (fun t => (updLookup (sysUps L feed s.systemId) t.id).isSome) =
      encCond L (batchUps L feed) s := by
  have hplt : List.Pairwise (fun a b => a.rowOrder < b.rowOrder) (as ++ s :: bs) := by
    rw [← hsplit]
    exact sortByRowOrder_pairwise_lt (hsys s.systemId)
  rw [← pairwise_filter_lt hplt]
  have hperm : (as ++ s :: bs).Perm
      (L.filter (fun t => decide (t.systemId = s.systemId))) := by
    rw [← hsplit]
    exact sortByRowOrder_perm _
  rw [perm_any (hperm.filter (fun t => decide (t.rowOrder < s.rowOrder)))]
  rw [List.filter_filter]
  unfold encCond
  have hpred : L.filter (fun t => decide (t.rowOrder < s.rowOrder) &&
      decide (t.systemId = s.systemId)) =
      L.filter (fun t => decide (t.systemId = s.systemId) &&
      decide (t.rowOrder < s.rowOrder)) := by
    apply List.filter_congr
    intro t _
    exact Bool.and_comm _ _
  rw [hpred]
  apply any_congr
  intro t htm
  have ht2 := List.mem_filter.mp htm
  have hts : t.systemId = s.systemId := by
    have h3 := ht2.2
    simp only [Bool.and_eq_true, decide_eq_true_eq] at h3
    exact h3.1
  rw [updLookup_sysUps hid ht2.1 hts]

/-- The settlement batch acts on every ledger row exactly as `uploadStep`
describes, provided ids are unique and per-system row orders are unique. -/
theorem uploadResultsFromCSV_char (L : List Selection) (feed : List FeedRow)
    (hid : idsNodup L) (hsys : sysOrdersNodup L) :
    uploadResultsFromCSV L feed = L.map (uploadStep L feed) := by
  simp only [uploadResultsFromCSV, applyBulk]
  apply List.map_eq_map_iff.mpr
  intro s hs
  rw [lookupNew_groups hid hs (fun sid => sysUps L feed sid) _ (List.nodup_dedup _)]
  cases hu : updLookup (batchUps L feed) s.id with
  | some u =>
    have hu2 := updLookup_mem hu
    have husys : u.systemId = s.systemId := batchUps_system hid hs hu2.1 hu2.2
    have hmem : s.systemId ∈ ((batchUps L feed).map (fun u => u.systemId)).dedup := by
      rw [List.mem_dedup, ← husys]
      exact List.mem_map_of_mem (fun u => u.systemId) hu2.1
    rw [if_pos hmem]
    have hs2 : s ∈ sysSorted L s.systemId := by
      unfold sysSorted
      exact mem_sortByRowOrder.mpr (List.mem_filter.mpr ⟨hs, by simp⟩)
    obtain ⟨as, bs, hsplit⟩ := List.append_of_mem hs2
    have hnd : ((as ++ s :: bs).map (fun t => t.id)).Nodup := by
      rw [← hsplit]
      unfold sysSorted
      exact sorted_filter_ids_nodup hid _
    have hu3 : updLookup (sysUps L feed s.systemId) s.id = some u := by
      rw [updLookup_sysUps hid hs rfl, hu]
    unfold recomputeSystem
    rw [hsplit]
    rw [recomputeGo_lookup_updated _ s u bs as 0 false hnd hu3]
    rw [Option.getD_some]
    have heq : uploadStep L feed s =
        applyUpdateData s u (effPrefixW L (batchUps L feed) s) := by
      unfold uploadStep
      rw [hu]
    rw [heq]
    congr 1
    rw [zero_add]
    exact effSum_translate L feed hid hsys hsplit
  | none =>
    cases henc : encCond L (batchUps L feed) s with
    | true =>
      have hex : ∃ t, t ∈ L.filter (fun t => decide (t.systemId = s.systemId) &&
          decide (t.rowOrder < s.rowOrder)) ∧
          ((updLookup (batchUps L feed) t.id).isSome) = true := by
        unfold encCond at henc
        exact List.any_eq_true.mp henc
      obtain ⟨t, htm, htsome⟩ := hex
      have ht2 := List.mem_filter.mp htm
      have hts : t.systemId = s.systemId := by
        have h3 := ht2.2
        simp only [Bool.and_eq_true, decide_eq_true_eq] at h3
        exact h3.1
      obtain ⟨ut, hut⟩ := Option.isSome_iff_exists.mp htsome
      have hut2 := updLookup_mem hut
      have hutsys : ut.systemId = s.systemId := by
        rw [batchUps_system hid ht2.1 hut2.1 hut2.2]
        exact hts
      have hmem : s.systemId ∈ ((batchUps L feed).map (fun u => u.systemId)).dedup := by
        rw [List.mem_dedup, ← hutsys]
        exact List.mem_map_of_mem (fun u => u.systemId) hut2.1
      rw [if_pos hmem]
      have hs2 : s ∈ sysSorted L s.systemId := by
        unfold sysSorted
        exact mem_sortByRowOrder.mpr (List.mem_filter.mpr ⟨hs, by simp⟩)
      obtain ⟨as, bs, hsplit⟩ := List.append_of_mem hs2
      have hnd : ((as ++ s :: bs).map (fun t => t.id)).Nodup := by
        rw [← hsplit]
        unfold sysSorted
        exact sorted_filter_ids_nodup hid _
      have hu3 : updLookup (sysUps L feed s.systemId) s.id = none := by
        rw [updLookup_sysUps hid hs rfl, hu]
      have hany : as.any (fun t => (updLookup (sysUps L feed s.systemId) t.id).isSome) = true := by
        rw [encAny_translate L feed hid hsys hsplit]
        exact henc
      unfold recomputeSystem
      rw [hsplit]
      rw [recomputeGo_lookup_enc _ s bs as 0 false hnd hu3 (by rw [hany]; simp)]
      rw [Option.getD_some]
      have heq : uploadStep L feed s =
          (if encCond L (batchUps L feed) s then
            { s with runningWinPL := some (effPrefixW L (batchUps L feed) s) }
          else s) := by
        unfold uploadStep
        rw [hu]
      rw [heq, henc, if_pos rfl]
      have hv : (0 : ℚ) + ((as ++ [s]).map (effW (sysUps L feed s.systemId))).sum =
          effPrefixW L (batchUps L feed) s := by
        rw [zero_add]
        exact effSum_translate L feed hid hsys hsplit
      rw [hv]
    | false =>
      by_cases hmem : s.systemId ∈ ((batchUps L feed).map (fun u => u.systemId)).dedup
      · rw [if_pos hmem]
        have hs2 : s ∈ sysSorted L s.systemId := by
          unfold sysSorted
          exact mem_sortByRowOrder.mpr (List.mem_filter.mpr ⟨hs, by simp⟩)
        obtain ⟨as, bs, hsplit⟩ := List.append_of_mem hs2
        have hnd : ((as ++ s :: bs).map (fun t => t.id)).Nodup := by
          rw [← hsplit]
          unfold sysSorted
          exact sorted_filter_ids_nodup hid _
        have hu3 : updLookup (sysUps L feed s.systemId) s.id = none := by
          rw [updLookup_sysUps hid hs rfl, hu]
        have hany : as.any (fun t => (updLookup (sysUps L feed s.systemId) t.id).isSome) = false := by
          rw [encAny_translate L feed hid hsys hsplit]
          exact henc
        unfold recomputeSystem
        rw [hsplit]
        rw [recomputeGo_lookup_skip _ s bs as 0 hnd hu3 hany]
        rw [Option.getD_none]
        have heq : uploadStep L feed s = s := by
          unfold uploadStep
          rw [hu, henc]
          rfl
        rw [heq]
      · rw [if_neg hmem, Option.getD_none]
        have heq : uploadStep L feed s = s := by
          unfold uploadStep
          rw [hu, henc]
          rfl
        rw [heq]

theorem sysOrders_inj {L : List Selection} (hsys : sysOrdersNodup L) {a b : Selection}
    (ha : a ∈ L) (hb : b ∈ L) (hsid : a.systemId = b.systemId)
    (hro : a.rowOrder = b.rowOrder) : a = b := by
  have ha2 : a ∈ L.filter (fun s => decide (s.systemId = b.systemId)) :=
    List.mem_filter.mpr ⟨ha, by simp [hsid]⟩
  have hb2 : b ∈ L.filter (fun s => decide (s.systemId = b.systemId)) :=
    List.mem_filter.mpr ⟨hb, by simp⟩
  exact List.inj_on_of_nodup_map (hsys b.systemId) ha2 hb2 hro

theorem uploadStep_eq_some {L : List Selection} {feed : List FeedRow} {s : Selection}
    {u : UpdateRec} (hu : updLookup (batchUps L feed) s.id = some u) :
    uploadStep L feed s = applyUpdateData s u (effPrefixW L (batchUps L feed) s) := by
  unfold uploadStep
  rw [hu]

theorem uploadStep_eq_none {L : List Selection} {feed : List FeedRow} {s : Selection}
    (hu : updLookup (batchUps L feed) s.id = none) :
    uploadStep L feed s =
      (if encCond L (batchUps L feed) s then
        { s with runningWinPL := some (effPrefixW L (batchUps L feed) s) }
      else s) := by
  unfold uploadStep
  rw [hu]

theorem uploadStep_eq_enc {L : List Selection} {feed : List FeedRow} {s : Selection}
    (hu : updLookup (batchUps L feed) s.id = none)
    (henc : encCond L (batchUps L feed) s = true) :
    uploadStep L feed s =
      { s with runningWinPL := some (effPrefixW L (batchUps L feed) s) } := by
  rw [uploadStep_eq_none hu, henc, if_pos rfl]

theorem uploadStep_eq_skip {L : List Selection} {feed : List FeedRow} {s : Selection}
    (hu : updLookup (batchUps L feed) s.id = none)
    (henc : encCond L (batchUps L feed) s = false) :
    uploadStep L feed s = s := by
  rw [uploadStep_eq_none hu, henc]
  rfl

theorem uploadStep_systemId (L : List Selection) (feed : List FeedRow) (s : Selection) :
    (uploadStep L feed s).systemId = s.systemId := by
  cases hu : updLookup (batchUps L feed) s.id with
  | none =>
    cases henc : encCond L (batchUps L feed) s with
    | false => rw [uploadStep_eq_skip hu henc]
    | true =>
      rw [uploadStep_eq_enc hu henc]
  | some u =>
    rw [uploadStep_eq_some hu]
    rfl

theorem uploadStep_rowOrder (L : List Selection) (feed : List FeedRow) (s : Selection) :
    (uploadStep L feed s).rowOrder = s.rowOrder := by
  cases hu : updLookup (batchUps L feed) s.id with
  | none =>
    cases henc : encCond L (batchUps L feed) s with
    | false => rw [uploadStep_eq_skip hu henc]
    | true =>
      rw [uploadStep_eq_enc hu henc]
  | some u =>
    rw [uploadStep_eq_some hu]
    rfl

theorem uploadStep_id (L : List Selection) (feed : List FeedRow) (s : Selection) :
    (uploadStep L feed s).id = s.id := by
  cases hu : updLookup (batchUps L feed) s.id with
  | none =>
    cases henc : encCond L (batchUps L feed) s with
    | false => rw [uploadStep_eq_skip hu henc]
    | true =>
      rw [uploadStep_eq_enc hu henc]
  | some u =>
    rw [uploadStep_eq_some hu]
    rfl

theorem uploadStep_dateISO (L : List Selection) (feed : List FeedRow) (s : Selection) :
    (uploadStep L feed s).dateISO = s.dateISO := by
  cases hu : updLookup (batchUps L feed) s.id with
  | none =>
    cases henc : encCond L (batchUps L feed) s with
    | false => rw [uploadStep_eq_skip hu henc]
    | true =>
      rw [uploadStep_eq_enc hu henc]
  | some u =>
    rw [uploadStep_eq_some hu]
    rfl

theorem uploadStep_selKey (L : List Selection) (feed : List FeedRow) (s : Selection) :
    selKey (uploadStep L feed s) = selKey s := by
  cases hu : updLookup (batchUps L feed) s.id with
  | none =>
    cases henc : encCond L (batchUps L feed) s with
    | false => rw [uploadStep_eq_skip hu henc]
    | true =>
      rw [uploadStep_eq_enc hu henc]
      rfl
  | some u =>
    rw [uploadStep_eq_some hu]
    rfl

theorem uploadStep_winPL_getD (L : List Selection) (feed : List FeedRow) (s : Selection) :
    (uploadStep L feed s).winPL.getD 0 = effW (batchUps L feed) s := by
  cases hu : updLookup (batchUps L feed) s.id with
  | none =>
    cases henc : encCond L (batchUps L feed) s with
    | false =>
      rw [uploadStep_eq_skip hu henc, effW_skipped hu]
    | true =>
      rw [uploadStep_eq_enc hu henc, effW_skipped hu]
  | some u =>
    rw [uploadStep_eq_some hu, effW_updated hu]
    rfl

theorem uploadStep_hasResult_none {L : List Selection} {feed : List FeedRow} {s : Selection}
    (hu : updLookup (batchUps L feed) s.id = none) :
    (uploadStep L feed s).hasResult = s.hasResult := by
  cases henc : encCond L (batchUps L feed) s with
  | false => rw [uploadStep_eq_skip hu henc]
  | true => rw [uploadStep_eq_enc hu henc]

theorem uploadStep_result_none {L : List Selection} {feed : List FeedRow} {s : Selection}
    (hu : updLookup (batchUps L feed) s.id = none) :
    (uploadStep L feed s).result = s.result := by
  cases henc : encCond L (batchUps L feed) s with
  | false => rw [uploadStep_eq_skip hu henc]
  | true => rw [uploadStep_eq_enc hu henc]

theorem uploadStep_winPL_none {L : List Selection} {feed : List FeedRow} {s : Selection}
    (hu : updLookup (batchUps L feed) s.id = none) :
    (uploadStep L feed s).winPL = s.winPL := by
  cases henc : encCond L (batchUps L feed) s with
  | false => rw [uploadStep_eq_skip hu henc]
  | true => rw [uploadStep_eq_enc hu henc]

theorem uploadStep_hasResult_some {L : List Selection} {feed : List FeedRow} {s : Selection}
    {u : UpdateRec} (hu : updLookup (batchUps L feed) s.id = some u) :
    (uploadStep L feed s).hasResult = true := by
  rw [uploadStep_eq_some hu]
  rfl

/-- The prefix sum of `winPL` in the rewritten ledger equals the effective
prefix sum in the original one. -/
theorem winPrefixSum_map_upload (L : List Selection) (feed : List FeedRow) (sid ro : Nat) :
    winPrefixSum (L.map (uploadStep L feed)) sid ro =
      ((L.filter (fun t => decide (t.systemId = sid) && decide (t.rowOrder ≤ ro))).map
        (effW (batchUps L feed))).sum := by
  unfold winPrefixSum sumWin
  rw [List.filter_map]
  have hpred : L.filter ((fun t => decide (t.systemId = sid) && decide (t.rowOrder ≤ ro))
      ∘ (uploadStep L feed)) =
      L.filter (fun t => decide (t.systemId = sid) && decide (t.rowOrder ≤ ro)) := by
    apply List.filter_congr
    intro t _
    simp only [Function.comp_apply]
    rw [uploadStep_systemId, uploadStep_rowOrder]
  rw [hpred, List.map_map]
  apply congrArg
  apply List.map_eq_map_iff.mpr
  intro t _
  simp only [Function.comp_apply]
  exact uploadStep_winPL_getD L feed t

/-- The settlement batch preserves the correct-when-present prefix-sum
invariant. -/
theorem upload_InvWin (L : List Selection) (feed : List FeedRow) (hid : idsNodup L)
    (hsys : sysOrdersNodup L) (hinv : InvWin L) :
    InvWin (uploadResultsFromCSV L feed) := by
  rw [uploadResultsFromCSV_char L feed hid hsys]
  intro s' hs'
  obtain ⟨s, hs, rfl⟩ := List.mem_map.mp hs'
  cases hu : updLookup (batchUps L feed) s.id with
  | some u =>
    refine Or.inr ?_
    rw [uploadStep_eq_some hu]
    show some (effPrefixW L (batchUps L feed) s) =
      some (winPrefixSum (L.map (uploadStep L feed)) s.systemId s.rowOrder)
    rw [winPrefixSum_map_upload]
    rfl
  | none =>
    cases henc : encCond L (batchUps L feed) s with
    | true =>
      refine Or.inr ?_
      rw [uploadStep_eq_enc hu henc]
      show some (effPrefixW L (batchUps L feed) s) =
        some (winPrefixSum (L.map (uploadStep L feed)) s.systemId s.rowOrder)
      rw [winPrefixSum_map_upload]
      rfl
    | false =>
      rw [uploadStep_eq_skip hu henc]
      rcases hinv s hs with h1 | h1
      · exact Or.inl h1
      · refine Or.inr ?_
        rw [h1]
        have hpt : ∀ t ∈ L.filter (fun t => decide (t.systemId = s.systemId) &&
            decide (t.rowOrder ≤ s.rowOrder)),
            t.winPL.getD 0 = effW (batchUps L feed) t := by
          intro t htm
          have ht2 := List.mem_filter.mp htm
          have h3 := ht2.2
          simp only [Bool.and_eq_true, decide_eq_true_eq] at h3
          rcases Nat.lt_or_ge t.rowOrder s.rowOrder with hlt | hge
          · have hnone : updLookup (batchUps L feed) t.id = none := by
              unfold encCond at henc
              have h4 := List.any_eq_false.mp henc t
                (List.mem_filter.mpr ⟨ht2.1, by simp [h3.1, hlt]⟩)
              exact Option.not_isSome_iff_eq_none.mp h4
            rw [effW_skipped hnone]
          · have heq : t.rowOrder = s.rowOrder := Nat.le_antisymm h3.2 hge
            have hts : t = s := sysOrders_inj hsys ht2.1 hs h3.1 heq
            rw [hts, effW_skipped hu]
        rw [winPrefixSum_map_upload]
        unfold winPrefixSum sumWin
        exact congrArg some (congrArg List.sum (List.map_eq_map_iff.mpr hpt))

theorem walk_cons (ctx : List Selection) (sys : Nat) (t : Selection)
    (rest : List Selection) (runW : ℚ) (runP : Option ℚ) :
    walkSubsequent ctx sys (t :: rest) runW runP =
      { t with
        runningWinPL := some (runW + t.winPL.getD 0)
        runningPlacePL := (match walkPlaceStep ctx sys runP t with
          | some q => some q
          | none => t.runningPlacePL) } ::
      walkSubsequent ctx sys rest (runW + t.winPL.getD 0) (walkPlaceStep ctx sys runP t) :=
  rfl

theorem walk_ids (ctx : List Selection) (sys : Nat) :
    ∀ (l : List Selection) (runW : ℚ) (runP : Option ℚ),
    (walkSubsequent ctx sys l runW runP).map (fun t => t.id) = l.map (fun t => t.id) := by
  intro l
  induction l with
  | nil => intro runW runP; rfl
  | cons t rest ih =>
    intro runW runP
    rw [walk_cons, List.map_cons, List.map_cons, ih]

theorem walk_lookup_notmem (ctx : List Selection) (sys : Nat) {l : List Selection}
    {runW : ℚ} {runP : Option ℚ} {id : Nat} (h : ∀ t ∈ l, ¬ t.id = id) :
    lookupNew (walkSubsequent ctx sys l runW runP) id = none := by
  apply lookupNew_none
  intro t' ht'
  have h2 : t'.id ∈ l.map (fun t => t.id) := by
    rw [← walk_ids ctx sys l runW runP]
    exact List.mem_map_of_mem (fun t => t.id) ht'
  obtain ⟨t, ht, hid⟩ := List.mem_map.mp h2
  rw [← hid]
  exact h t ht

/-- The subsequent-row walk rewrites each visited row's `runningWinPL` to the
seed plus the accumulated `winPL || 0` of the visited prefix, and touches no
other sum-relevant field. -/
theorem walk_lookup (ctx : List Selection) (sys : Nat) (s : Selection)
    (bs : List Selection) :
    ∀ (as : List Selection) (runW : ℚ) (runP : Option ℚ),
    ((as ++ s :: bs).map (fun t => t.id)).Nodup →
    ∃ t', lookupNew (walkSubsequent ctx sys (as ++ s :: bs) runW runP) s.id = some t' ∧
      t'.id = s.id ∧ t'.systemId = s.systemId ∧ t'.rowOrder = s.rowOrder ∧
      t'.winPL = s.winPL ∧ t'.hasResult = s.hasResult ∧ t'.result = s.result ∧
      t'.placePL = s.placePL ∧
      t'.runningWinPL = some (runW + sumWin (as ++ [s])) := by
  intro as
  induction as with
  | nil =>
    intro runW runP hnd
    rw [List.nil_append] at hnd ⊢
    rw [walk_cons]
    have htail : lookupNew (walkSubsequent ctx sys bs (runW + s.winPL.getD 0)
        (walkPlaceStep ctx sys runP s)) s.id = none :=
      walk_lookup_notmem ctx sys (nodup_ids_notmem_tail hnd)
    refine ⟨{ s with
        runningWinPL := some (runW + s.winPL.getD 0)
        runningPlacePL := (match walkPlaceStep ctx sys runP s with
          | some q => some q
          | none => s.runningPlacePL) }, ?_, rfl, rfl, rfl, rfl, rfl, rfl, rfl, ?_⟩
    · rw [lookupNew_cons_none htail]
      rw [if_pos rfl]
    · show some (runW + s.winPL.getD 0) = some (runW + sumWin ([] ++ [s]))
      rw [List.nil_append, sumWin_singleton]
  | cons a as2 ih =>
    intro runW runP hnd
    rw [List.cons_append] at hnd ⊢
    have hnd2 := nodup_ids_tail hnd
    have hane : ¬ a.id = s.id := head_id_ne hnd
    obtain ⟨t', hlk, hid, hsys2, hro, hwin, hres, hresult, hplace, hrun⟩ :=
      ih (runW + a.winPL.getD 0) (walkPlaceStep ctx sys runP a) hnd2
    refine ⟨t', ?_, hid, hsys2, hro, hwin, hres, hresult, hplace, ?_⟩
    · rw [walk_cons]
      rw [lookupNew_cons_ne (show ¬ ({ a with
        runningWinPL := some (runW + a.winPL.getD 0)
        runningPlacePL := (match walkPlaceStep ctx sys runP a with
          | some q => some q
          | none => a.runningPlacePL) } : Selection).id = s.id from hane)]
      exact hlk
    · rw [hrun]
      congr 1
      rw [List.cons_append, sumWin_cons]
      ring

theorem walk_mem (ctx : List Selection) (sys : Nat) :
    ∀ (l : List Selection) (runW : ℚ) (runP : Option ℚ) (t' : Selection),
    t' ∈ walkSubsequent ctx sys l runW runP →
    ∃ w ∈ l, t'.id = w.id ∧ t'.systemId = w.systemId ∧ t'.rowOrder = w.rowOrder ∧
      t'.winPL = w.winPL := by
  intro l
  induction l with
  | nil => intro _ _ t' h; exact absurd h (List.not_mem_nil t')
  | cons a rest ih =>
    intro runW runP t' h
    rw [walk_cons] at h
    rcases List.mem_cons.mp h with h1 | h1
    · subst h1
      exact ⟨a, List.mem_cons_self a rest, rfl, rfl, rfl, rfl⟩
    · obtain ⟨w, hw, hp⟩ := ih _ _ t' h1
      exact ⟨w, List.mem_cons_of_mem a hw, hp⟩

theorem applyBulk_walk_proj {L1 ctx : List Selection} {sys : Nat} {l : List Selection}
    {runW : ℚ} {runP : Option ℚ} (hid1 : idsNodup L1) (hl : ∀ w ∈ l, w ∈ L1) :
    ∀ u ∈ L1,
      ((lookupNew (walkSubsequent ctx sys l runW runP) u.id).getD u).systemId = u.systemId ∧
      ((lookupNew (walkSubsequent ctx sys l runW runP) u.id).getD u).rowOrder = u.rowOrder ∧
      ((lookupNew (walkSubsequent ctx sys l runW runP) u.id).getD u).winPL = u.winPL := by
  intro u hu
  cases hlk : lookupNew (walkSubsequent ctx sys l runW runP) u.id with
  | none => exact ⟨rfl, rfl, rfl⟩
  | some v =>
    obtain ⟨hvW, hvid⟩ := lookupNew_mem hlk
    obtain ⟨w, hw, hwid, hwsys, hwro, hwwin⟩ := walk_mem ctx sys l runW runP v hvW
    have hweq : w = u := idsNodup_inj hid1 (hl w hw) hu (by rw [← hwid, hvid])
    rw [Option.getD_some]
    rw [hweq] at hwsys hwro hwwin
    exact ⟨hwsys, hwro, hwwin⟩

/-- Applying the walk's bulk writes changes no row's `systemId`, `rowOrder`
or `winPL`, hence no `winPL` prefix sum. -/
theorem applyBulk_walk_winPrefix (L1 ctx : List Selection) (sys : Nat)
    (l : List Selection) (runW : ℚ) (runP : Option ℚ) (hid1 : idsNodup L1)
    (hl : ∀ w ∈ l, w ∈ L1) (sid ro : Nat) :
    winPrefixSum (applyBulk L1 (walkSubsequent ctx sys l runW runP)) sid ro =
      winPrefixSum L1 sid ro := by
  unfold applyBulk winPrefixSum sumWin
  rw [List.filter_map]
  have hpred : L1.filter ((fun t => decide (t.systemId = sid) && decide (t.rowOrder ≤ ro))
      ∘ (fun s => (lookupNew (walkSubsequent ctx sys l runW runP) s.id).getD s)) =
      L1.filter (fun t => decide (t.systemId = sid) && decide (t.rowOrder ≤ ro)) := by
    apply List.filter_congr
    intro u hu
    obtain ⟨h1, h2, h3⟩ := applyBulk_walk_proj hid1 hl u hu
    simp only [Function.comp_apply]
    rw [h1, h2]
  rw [hpred, List.map_map]
  apply congrArg
  apply List.map_eq_map_iff.mpr
  intro u hu
  have hmem : u ∈ L1 := List.mem_of_mem_filter hu
  obtain ⟨h1, h2, h3⟩ := applyBulk_walk_proj hid1 hl u hmem
  simp only [Function.comp_apply]
  rw [h3]

theorem sumWin_zero {l : List Selection} (h : ∀ u ∈ l, u.winPL.getD 0 = 0) :
    sumWin l = 0 := by
  unfold sumWin
  apply List.sum_eq_zero
  intro x hx
  obtain ⟨u, hu, rfl⟩ := List.mem_map.mp hx
  exact h u hu

theorem filter_comm_sel (L : List Selection) (p q : Selection → Bool) :
    (L.filter p).filter q = (L.filter q).filter p := by
  rw [List.filter_filter, List.filter_filter]
  exact List.filter_congr (fun a _ => Bool.and_comm _ _)

/-- Row orders stay pairwise distinct on any conjunction-narrowed system
slice. -/
theorem ro_nodup_filter {L1 : List Selection} (hsys1 : sysOrdersNodup L1)
    (sid : Nat) (p : Selection → Bool) :
    ((L1.filter (fun u => decide (u.systemId = sid) && p u)).map
      (fun u => u.rowOrder)).Nodup := by
  have h1 : L1.filter (fun u => decide (u.systemId = sid) && p u) =
      (L1.filter (fun u => decide (u.systemId = sid))).filter p := by
    rw [List.filter_filter]
    exact List.filter_congr (fun a _ => Bool.and_comm _ _)
  rw [h1]
  exact ((List.filter_sublist (L1.filter (fun u => decide (u.systemId = sid)))).map
    (fun u => u.rowOrder)).nodup (hsys1 sid)

theorem idsNodup_filter {L : List Selection} (hid : idsNodup L) (p : Selection → Bool) :
    idsNodup (L.filter p) := by
  have hid2 : (L.map (fun s => s.id)).Nodup := hid
  exact ((List.filter_sublist L).map (fun s => s.id)).nodup hid2

theorem sysOrdersNodup_filter {L : List Selection} (hsys : sysOrdersNodup L)
    (p : Selection → Bool) : sysOrdersNodup (L.filter p) := by
  intro sys
  have h1 : List.Sublist ((L.filter p).filter (fun s => decide (s.systemId = sys)))
      (L.filter (fun s => decide (s.systemId = sys))) := by
    rw [filter_comm_sel]
    exact List.filter_sublist (L.filter (fun s => decide (s.systemId = sys)))
  exact (h1.map (fun s => s.rowOrder)).nodup (hsys sys)

/-- Prefix sum at a row of the strictly-later slice, decomposed into the
sum at or before the pivot order plus the walked prefix of the slice. -/
theorem winPrefix_decomp (M : List Selection) (hsysM : sysOrdersNodup M)
    (sid pro : Nat) {as bs : List Selection} {t : Selection}
    (hsplit : sortByRowOrder (M.filter (fun u => decide (u.systemId = sid) &&
      decide (pro < u.rowOrder))) = as ++ t :: bs) :
    winPrefixSum M sid t.rowOrder =
      sumWin (M.filter (fun u => decide (u.systemId = sid) &&
        decide (u.rowOrder ≤ pro))) + sumWin (as ++ [t]) := by
  have htmem : t ∈ sortByRowOrder (M.filter (fun u => decide (u.systemId = sid) &&
      decide (pro < u.rowOrder))) := by
    rw [hsplit]
    exact List.mem_append_right as (List.mem_cons_self t bs)
  have ht2 := List.mem_filter.mp (mem_sortByRowOrder.mp htmem)
  have ht3 := ht2.2
  simp only [Bool.and_eq_true, decide_eq_true_eq] at ht3
  have hplt : List.Pairwise (fun a b => a.rowOrder < b.rowOrder) (as ++ t :: bs) := by
    rw [← hsplit]
    exact sortByRowOrder_pairwise_lt (ro_nodup_filter hsysM sid _)
  have hfle := pairwise_filter_le hplt
  have hperm : (as ++ t :: bs).Perm (M.filter (fun u => decide (u.systemId = sid) &&
      decide (pro < u.rowOrder))) := by
    rw [← hsplit]
    exact sortByRowOrder_perm _
  have hA : sumWin ((M.filter (fun u => decide (u.systemId = sid) &&
      decide (pro < u.rowOrder))).filter (fun u => decide (u.rowOrder ≤ t.rowOrder))) =
      sumWin (as ++ [t]) := by
    rw [← sumWin_perm (hperm.filter (fun u => decide (u.rowOrder ≤ t.rowOrder))), hfle]
  unfold winPrefixSum
  rw [sumWin_filter_split (M.filter (fun u => decide (u.systemId = sid) &&
    decide (u.rowOrder ≤ t.rowOrder))) (fun u => decide (pro < u.rowOrder))]
  have he1 : (M.filter (fun u => decide (u.systemId = sid) &&
      decide (u.rowOrder ≤ t.rowOrder))).filter (fun u => decide (pro < u.rowOrder)) =
      (M.filter (fun u => decide (u.systemId = sid) &&
      decide (pro < u.rowOrder))).filter (fun u => decide (u.rowOrder ≤ t.rowOrder)) := by
    rw [List.filter_filter, List.filter_filter]
    apply List.filter_congr
    intro a _
    cases h1 : decide (pro < a.rowOrder) <;> cases h2 : decide (a.systemId = sid) <;>
      cases h3 : decide (a.rowOrder ≤ t.rowOrder) <;> simp [h1, h2, h3]
  have he2 : (M.filter (fun u => decide (u.systemId = sid) &&
      decide (u.rowOrder ≤ t.rowOrder))).filter (fun u => !(decide (pro < u.rowOrder))) =
      M.filter (fun u => decide (u.systemId = sid) && decide (u.rowOrder ≤ pro)) := by
    rw [List.filter_filter]
    apply List.filter_congr
    intro a _
    by_cases h1 : pro < a.rowOrder
    · have h2 : ¬ a.rowOrder ≤ pro := Nat.not_le.mpr h1
      simp [h1, h2]
    · have h2 : a.rowOrder ≤ pro := Nat.not_lt.mp h1
      have h3 : a.rowOrder ≤ t.rowOrder := Nat.le_trans h2 (Nat.le_of_lt ht3.2)
      simp [h1, h2, h3]
  rw [he1, hA, he2]
  ring

/-- With pairwise distinct ids, filtering on a present id keeps exactly that
document. -/
theorem filter_id_singleton : ∀ (L : List Selection), idsNodup L →
    ∀ {sel : Selection} {id : Nat}, sel ∈ L → sel.id = id →
    L.filter (fun u => decide (u.id = id)) = [sel] := by
  intro L
  induction L with
  | nil => intro _ sel id hsel _; exact absurd hsel (List.not_mem_nil sel)
  | cons a rest ih =>
    intro hid sel id hsel hselid
    have hid2 : ((a :: rest).map (fun s => s.id)).Nodup := hid
    rw [List.map_cons, List.nodup_cons] at hid2
    rcases List.mem_cons.mp hsel with h1 | h1
    · have haid : a.id = id := by
        rw [← h1]
        exact hselid
      rw [List.filter_cons, if_pos (by simp [haid])]
      have hrest : rest.filter (fun u => decide (u.id = id)) = [] := by
        rw [List.filter_eq_nil_iff]
        intro u hu hdec
        have hu2 : u.id = id := by simpa using hdec
        apply hid2.1
        have ha2 : a.id = u.id := by rw [hu2, haid]
        rw [ha2]
        exact List.mem_map_of_mem (fun s => s.id) hu
      rw [hrest, h1]
    · have hane : ¬ (a.id = id) := by
        intro he
        apply hid2.1
        rw [he, ← hselid]
        exact List.mem_map_of_mem (fun s => s.id) h1
      rw [List.filter_cons, if_neg (by simpa using hane)]
      exact ih hid2.2 h1 hselid

theorem idsNodup_map_of {L : List Selection} {g : Selection → Selection}
    (hp : ∀ t ∈ L, (g t).id = t.id) (hid : idsNodup L) : idsNodup (L.map g) := by
  unfold idsNodup
  rw [List.map_map]
  have h1 : L.map ((fun s => s.id) ∘ g) = L.map (fun s => s.id) :=
    List.map_eq_map_iff.mpr (fun t ht => hp t ht)
  rw [h1]
  exact hid

theorem sysOrdersNodup_map_of {L : List Selection} {g : Selection → Selection}
    (hpsys : ∀ t ∈ L, (g t).systemId = t.systemId)
    (hpro : ∀ t ∈ L, (g t).rowOrder = t.rowOrder) (hsys : sysOrdersNodup L) :
    sysOrdersNodup (L.map g) := by
  intro sys
  rw [List.filter_map]
  have h1 : L.filter ((fun s => decide (s.systemId = sys)) ∘ g) =
      L.filter (fun s => decide (s.systemId = sys)) := by
    apply List.filter_congr
    intro t ht
    simp only [Function.comp_apply]
    rw [hpsys t ht]
  rw [h1, List.map_map]
  have h2 : (L.filter (fun s => decide (s.systemId = sys))).map ((fun s => s.rowOrder) ∘ g) =
      (L.filter (fun s => decide (s.systemId = sys))).map (fun s => s.rowOrder) := by
    apply List.map_eq_map_iff.mpr
    intro t ht
    simp only [Function.comp_apply]
    exact hpro t (List.mem_of_mem_filter ht)
  rw [h2]
  exact hsys sys

/-- Deleting an unresulted row keeps the prefix-sum invariant: with the
data-model convention that unresulted rows carry no `winPL`, the removed row
contributed `0` to every sum. -/
theorem delete_filter_InvWin (L : List Selection) (id : Nat) (hid : idsNodup L)
    (hwf : ∀ s ∈ L, s.hasResult = false → s.winPL = none) (hinv : InvWin L)
    {sel : Selection} (hselL : sel ∈ L) (hselid : sel.id = id)
    (hres : sel.hasResult = false) :
    InvWin (L.filter (fun u => !(u.id = id))) := by
  intro t ht
  have ht2 := List.mem_filter.mp ht
  rcases hinv t ht2.1 with h1 | h1
  · exact Or.inl h1
  · refine Or.inr ?_
    rw [h1]
    congr 1
    unfold winPrefixSum
    rw [show (L.filter (fun u => !(u.id = id))).filter (fun u =>
        decide (u.systemId = t.systemId) && decide (u.rowOrder ≤ t.rowOrder)) =
        (L.filter (fun u => decide (u.systemId = t.systemId) &&
          decide (u.rowOrder ≤ t.rowOrder))).filter (fun u => !(u.id = id)) from
      filter_comm_sel L _ _]
    have hsplit2 := sumWin_filter_split (L.filter (fun u =>
      decide (u.systemId = t.systemId) && decide (u.rowOrder ≤ t.rowOrder)))
      (fun u => !(u.id = id))
    have hz : sumWin ((L.filter (fun u => decide (u.systemId = t.systemId) &&
        decide (u.rowOrder ≤ t.rowOrder))).filter (fun u => !(!(u.id = id)))) = 0 := by
      apply sumWin_zero
      intro u hu
      have hu2 := List.mem_filter.mp hu
      have hu3 : u.id = id := by simpa using hu2.2
      have hue : u = sel := idsNodup_inj hid (List.mem_of_mem_filter hu2.1) hselL
        (by rw [hu3, hselid])
      rw [hue, hwf sel hselL hres]
      rfl
    rw [hz, add_zero] at hsplit2
    exact hsplit2

/-- Deleting a resulted row and walking the later rows of its system keeps
the prefix-sum invariant. -/
theorem delete_walk_InvWin (L : List Selection) (sel : Selection) (id : Nat)
    (hid : idsNodup L) (hsys : sysOrdersNodup L) (hinv : InvWin L)
    (hselL : sel ∈ L) (hselid : sel.id = id) :
    InvWin (applyBulk (L.filter (fun u => !(u.id = id)))
      (walkSubsequent (L.filter (fun u => !(u.id = id))) sel.systemId
        (sortByRowOrder ((L.filter (fun u => !(u.id = id))).filter (fun u =>
          decide (u.systemId = sel.systemId) && decide (sel.rowOrder < u.rowOrder))))
        (sumWin (sortByRowOrder ((L.filter (fun u => !(u.id = id))).filter (fun u =>
          decide (u.systemId = sel.systemId) && decide (u.rowOrder < sel.rowOrder)))))
        (some (sumPlaceSome (sortByRowOrder ((L.filter (fun u => !(u.id = id))).filter
          (fun u => decide (u.systemId = sel.systemId) &&
            decide (u.rowOrder < sel.rowOrder)))))))) := by
  set L1 := L.filter (fun u => !(u.id = id)) with hL1
  set prevF := L1.filter (fun u => decide (u.systemId = sel.systemId) &&
    decide (u.rowOrder < sel.rowOrder)) with hprevF
  set subsF := L1.filter (fun u => decide (u.systemId = sel.systemId) &&
    decide (sel.rowOrder < u.rowOrder)) with hsubsF
  have hid1 : idsNodup L1 := idsNodup_filter hid _
  have hsys1 : sysOrdersNodup L1 := sysOrdersNodup_filter hsys _
  have hmemL1 : ∀ u, u ∈ L1 ↔ (u ∈ L ∧ ¬(u.id = id)) := by
    intro u
    constructor
    · intro h
      have h2 := List.mem_filter.mp h
      exact ⟨h2.1, by simpa using h2.2⟩
    · intro h
      exact List.mem_filter.mpr ⟨h.1, by simpa using h.2⟩
  have hnosel : ∀ u ∈ L1, u.systemId = sel.systemId → ¬ u.rowOrder = sel.rowOrder := by
    intro u hu hus hur
    have hu2 := (hmemL1 u).mp hu
    have hue : u = sel := sysOrders_inj hsys hu2.1 hselL hus hur
    exact hu2.2 (by rw [hue, hselid])
  have hsubsL1 : ∀ w ∈ sortByRowOrder subsF, w ∈ L1 := by
    intro w hw
    have h2 := mem_sortByRowOrder.mp hw
    rw [hsubsF] at h2
    exact List.mem_of_mem_filter h2
  have hkey : L1.filter (fun u => decide (u.systemId = sel.systemId) &&
      decide (u.rowOrder ≤ sel.rowOrder)) = prevF := by
    rw [hprevF]
    apply List.filter_congr
    intro u hu
    by_cases h1 : u.systemId = sel.systemId
    · have hne := hnosel u hu h1
      have h2 : (u.rowOrder ≤ sel.rowOrder) ↔ (u.rowOrder < sel.rowOrder) := by omega
      simp [h1, h2]
    · simp [h1]
  have hframe : ∀ sid2 ro2 : Nat, ¬(sel.systemId = sid2 ∧ sel.rowOrder ≤ ro2) →
      winPrefixSum L1 sid2 ro2 = winPrefixSum L sid2 ro2 := by
    intro sid2 ro2 hnr
    unfold winPrefixSum
    rw [show L1.filter (fun u => decide (u.systemId = sid2) &&
        decide (u.rowOrder ≤ ro2)) =
        (L.filter (fun u => decide (u.systemId = sid2) &&
          decide (u.rowOrder ≤ ro2))).filter (fun u => !(u.id = id)) from by
      rw [hL1]
      exact filter_comm_sel L _ _]
    have hsplit2 := sumWin_filter_split (L.filter (fun u =>
      decide (u.systemId = sid2) && decide (u.rowOrder ≤ ro2)))
      (fun u => !(u.id = id))
    have hz : (L.filter (fun u => decide (u.systemId = sid2) &&
        decide (u.rowOrder ≤ ro2))).filter (fun u => !(!(u.id = id))) = [] := by
      rw [List.filter_eq_nil_iff]
      intro u hu hdec
      have hu2 := List.mem_filter.mp hu
      have hu3 : u.id = id := by simpa using hdec
      have hue : u = sel := idsNodup_inj hid hu2.1 hselL (by rw [hu3, hselid])
      have hp := hu2.2
      simp only [Bool.and_eq_true, decide_eq_true_eq] at hp
      exact hnr ⟨by rw [← hue]; exact hp.1, by rw [← hue]; exact hp.2⟩
    rw [hz] at hsplit2
    rw [show sumWin ([] : List Selection) = 0 from rfl, add_zero] at hsplit2
    exact hsplit2.symm
  intro t' ht'
  unfold applyBulk at ht'
  obtain ⟨t, ht, hteq⟩ := List.mem_map.mp ht'
  have htL : t ∈ L := ((hmemL1 t).mp ht).1
  have htid : ¬ (t.id = id) := ((hmemL1 t).mp ht).2
  by_cases hc : t.systemId = sel.systemId ∧ sel.rowOrder < t.rowOrder
  · have hts : t ∈ sortByRowOrder subsF := by
      apply mem_sortByRowOrder.mpr
      rw [hsubsF]
      exact List.mem_filter.mpr ⟨ht, by simp [hc.1, hc.2]⟩
    obtain ⟨as, bs, hsplit⟩ := List.append_of_mem hts
    have hnd : ((as ++ t :: bs).map (fun u => u.id)).Nodup := by
      rw [← hsplit, hsubsF]
      exact sorted_filter_ids_nodup hid1 _
    obtain ⟨t'', hlk, hid2, hsys2, hro2, hwin2, hres2, hresult2, hplace2, hrun2⟩ :=
      walk_lookup L1 sel.systemId t bs as (sumWin (sortByRowOrder prevF))
        (some (sumPlaceSome (sortByRowOrder prevF))) hnd
    have hteq2 : t' = t'' := by
      rw [← hteq, hsplit, hlk, Option.getD_some]
    refine Or.inr ?_
    rw [hteq2, hrun2, hsys2, hro2]
    congr 1
    rw [hc.1]
    rw [applyBulk_walk_winPrefix L1 L1 sel.systemId (sortByRowOrder subsF)
      (sumWin (sortByRowOrder prevF)) (some (sumPlaceSome (sortByRowOrder prevF)))
      hid1 hsubsL1 sel.systemId t.rowOrder]
    rw [hsubsF] at hsplit
    rw [winPrefix_decomp L1 hsys1 sel.systemId sel.rowOrder hsplit]
    congr 1
    rw [hkey]
    exact sumWin_perm (sortByRowOrder_perm prevF)
  · have hlknone : lookupNew (walkSubsequent L1 sel.systemId (sortByRowOrder subsF)
        (sumWin (sortByRowOrder prevF))
        (some (sumPlaceSome (sortByRowOrder prevF)))) t.id = none := by
      apply walk_lookup_notmem
      intro w hw hwid
      have hw2 := mem_sortByRowOrder.mp hw
      rw [hsubsF] at hw2
      have hw3 := List.mem_filter.mp hw2
      have hwt : w = t := idsNodup_inj hid1 hw3.1 ht hwid
      have hp := hw3.2
      simp only [Bool.and_eq_true, decide_eq_true_eq] at hp
      exact hc ⟨by rw [← hwt]; exact hp.1, by rw [← hwt]; exact hp.2⟩
    have hteq2 : t' = t := by
      rw [← hteq, hlknone, Option.getD_none]
    rw [hteq2]
    rcases hinv t htL with h1 | h1
    · exact Or.inl h1
    · refine Or.inr ?_
      rw [h1]
      congr 1
      rw [applyBulk_walk_winPrefix L1 L1 sel.systemId (sortByRowOrder subsF)
        (sumWin (sortByRowOrder prevF)) (some (sumPlaceSome (sortByRowOrder prevF)))
        hid1 hsubsL1 t.systemId t.rowOrder]
      rw [hframe t.systemId t.rowOrder ?hnr2]
      case hnr2 =>
        rintro ⟨ha, hb⟩
        rcases Nat.lt_or_ge sel.rowOrder t.rowOrder with h2 | h2
        · exact hc ⟨ha.symm, h2⟩
        · have he : sel.rowOrder = t.rowOrder := Nat.le_antisymm hb h2
          have hts : t = sel := sysOrders_inj hsys htL hselL ha.symm he.symm
          exact htid (by rw [hts, hselid])

/-- `deleteSelection` preserves the correct-when-present prefix-sum
invariant. -/
theorem delete_InvWin (L : List Selection) (id : Nat) (hid : idsNodup L)
    (hsys : sysOrdersNodup L) (hwf : ∀ s ∈ L, s.hasResult = false → s.winPL = none)
    (hinv : InvWin L) : InvWin (deleteSelection L id) := by
  cases hg : getById L id with
  | none =>
    unfold deleteSelection
    rw [hg]
    exact hinv
  | some sel =>
    obtain ⟨hselL, hselid⟩ := getById_mem hg
    have hD : deleteSelection L id =
        (if sel.hasResult = false then L.filter (fun u => !(u.id = id))
        else applyBulk (L.filter (fun u => !(u.id = id)))
          (walkSubsequent (L.filter (fun u => !(u.id = id))) sel.systemId
            (sortByRowOrder ((L.filter (fun u => !(u.id = id))).filter (fun u =>
              decide (u.systemId = sel.systemId) && decide (sel.rowOrder < u.rowOrder))))
            (sumWin (sortByRowOrder ((L.filter (fun u => !(u.id = id))).filter (fun u =>
              decide (u.systemId = sel.systemId) && decide (u.rowOrder < sel.rowOrder)))))
            (some (sumPlaceSome (sortByRowOrder ((L.filter (fun u => !(u.id = id))).filter
              (fun u => decide (u.systemId = sel.systemId) &&
                decide (u.rowOrder < sel.rowOrder)))))))) := by
      unfold deleteSelection
      rw [hg]
    rw [hD]
    by_cases hres : sel.hasResult = false
    · rw [if_pos hres]
      exact delete_filter_InvWin L id hid hwf hinv hselL hselid hres
    · rw [if_neg hres]
      exact delete_walk_InvWin L sel id hid hsys hinv hselL hselid

/-- The result edit's rewrite-then-walk pass keeps the prefix-sum invariant:
the edited row gets the sum over its strict predecessors plus its new
`winPL`, and every later row of the system is rewalked from that seed. -/
theorem update_walk_InvWin (L : List Selection) (sel sel2 : Selection) (id : Nat)
    (w : ℚ) (runP : Option ℚ)
    (hid : idsNodup L) (hsys : sysOrdersNodup L) (hinv : InvWin L)
    (hselL : sel ∈ L) (hselid : sel.id = id)
    (h2id : sel2.id = sel.id) (h2sys : sel2.systemId = sel.systemId)
    (h2ro : sel2.rowOrder = sel.rowOrder) (h2win : sel2.winPL = some w)
    (h2run : sel2.runningWinPL = some (sumWin (sortByRowOrder (L.filter (fun u =>
      decide (u.systemId = sel.systemId) && decide (u.rowOrder ≤ sel.rowOrder) &&
      !(u.id = id)))) + w)) :
    InvWin (applyBulk (L.map (fun u => if u.id = id then sel2 else u))
      (walkSubsequent (L.map (fun u => if u.id = id then sel2 else u)) sel.systemId
        (sortByRowOrder ((L.map (fun u => if u.id = id then sel2 else u)).filter (fun u =>
          decide (u.systemId = sel.systemId) && decide (sel.rowOrder < u.rowOrder))))
        (sumWin (sortByRowOrder (L.filter (fun u =>
          decide (u.systemId = sel.systemId) && decide (u.rowOrder ≤ sel.rowOrder) &&
          !(u.id = id)))) + w)
        runP)) := by
  set g := (fun u : Selection => if u.id = id then sel2 else u) with hgdef
  set L1 := L.map g with hL1
  set prevL := sortByRowOrder (L.filter (fun u =>
    decide (u.systemId = sel.systemId) && decide (u.rowOrder ≤ sel.rowOrder) &&
    !(u.id = id))) with hprevL
  set subsF := L1.filter (fun u => decide (u.systemId = sel.systemId) &&
    decide (sel.rowOrder < u.rowOrder)) with hsubsF
  have hgproj : ∀ u ∈ L, (g u).id = u.id ∧ (g u).systemId = u.systemId ∧
      (g u).rowOrder = u.rowOrder := by
    intro u hu
    by_cases h1 : u.id = id
    · have hue : u = sel := idsNodup_inj hid hu hselL (by rw [h1, hselid])
      have hgu : g u = sel2 := by
        rw [hgdef]
        simp only [if_pos h1]
      rw [hgu, hue, h2id, h2sys, h2ro]
      exact ⟨rfl, rfl, rfl⟩
    · have hgu : g u = u := by
        rw [hgdef]
        simp only [if_neg h1]
      rw [hgu]
      exact ⟨rfl, rfl, rfl⟩
  have hid1 : idsNodup L1 := idsNodup_map_of (fun t ht => (hgproj t ht).1) hid
  have hsys1 : sysOrdersNodup L1 :=
    sysOrdersNodup_map_of (fun t ht => (hgproj t ht).2.1)
      (fun t ht => (hgproj t ht).2.2) hsys
  have hgwin : ∀ u : Selection, ¬(u.id = id) → g u = u := by
    intro u h1
    rw [hgdef]
    simp only [if_neg h1]
  have hgsel : g sel = sel2 := by
    rw [hgdef]
    simp only [if_pos hselid]
  have hsubsL1 : ∀ x ∈ sortByRowOrder subsF, x ∈ L1 := by
    intro x hx
    have h2 := mem_sortByRowOrder.mp hx
    rw [hsubsF] at h2
    exact List.mem_of_mem_filter h2
  have hkey : sumWin (L1.filter (fun u => decide (u.systemId = sel.systemId) &&
      decide (u.rowOrder ≤ sel.rowOrder))) = sumWin prevL + w := by
    rw [hL1, List.filter_map]
    have hp1 : L.filter ((fun u => decide (u.systemId = sel.systemId) &&
        decide (u.rowOrder ≤ sel.rowOrder)) ∘ g) =
        L.filter (fun u => decide (u.systemId = sel.systemId) &&
          decide (u.rowOrder ≤ sel.rowOrder)) := by
      apply List.filter_congr
      intro u hu
      obtain ⟨_, hs1, hr1⟩ := hgproj u hu
      simp only [Function.comp_apply]
      rw [hs1, hr1]
    rw [hp1]
    rw [sumWin_filter_split ((L.filter (fun u => decide (u.systemId = sel.systemId) &&
      decide (u.rowOrder ≤ sel.rowOrder))).map g) (fun v => !(v.id = id))]
    have hfq : ((L.filter (fun u => decide (u.systemId = sel.systemId) &&
        decide (u.rowOrder ≤ sel.rowOrder))).map g).filter (fun v => !(v.id = id)) =
        (L.filter (fun u => decide (u.systemId = sel.systemId) &&
          decide (u.rowOrder ≤ sel.rowOrder))).filter (fun u => !(u.id = id)) := by
      rw [List.filter_map]
      have hp2 : (L.filter (fun u => decide (u.systemId = sel.systemId) &&
          decide (u.rowOrder ≤ sel.rowOrder))).filter ((fun v => !(v.id = id)) ∘ g) =
          (L.filter (fun u => decide (u.systemId = sel.systemId) &&
          decide (u.rowOrder ≤ sel.rowOrder))).filter (fun u => !(u.id = id)) := by
        apply List.filter_congr
        intro u hu
        simp only [Function.comp_apply]
        rw [(hgproj u (List.mem_of_mem_filter hu)).1]
      rw [hp2]
      have hp3 : ((L.filter (fun u => decide (u.systemId = sel.systemId) &&
          decide (u.rowOrder ≤ sel.rowOrder))).filter (fun u => !(u.id = id))).map g =
          ((L.filter (fun u => decide (u.systemId = sel.systemId) &&
          decide (u.rowOrder ≤ sel.rowOrder))).filter (fun u => !(u.id = id))).map
            (fun u => u) := by
        apply List.map_eq_map_iff.mpr
        intro u hu
        exact hgwin u (by simpa using (List.mem_filter.mp hu).2)
      rw [hp3, List.map_id']
    rw [hfq]
    have hfq2 : ((L.filter (fun u => decide (u.systemId = sel.systemId) &&
        decide (u.rowOrder ≤ sel.rowOrder))).map g).filter (fun v => !(!(v.id = id))) =
        [sel2] := by
      rw [List.filter_map]
      have hp3 : (L.filter (fun u => decide (u.systemId = sel.systemId) &&
          decide (u.rowOrder ≤ sel.rowOrder))).filter ((fun v => !(!(v.id = id))) ∘ g) =
          (L.filter (fun u => decide (u.systemId = sel.systemId) &&
          decide (u.rowOrder ≤ sel.rowOrder))).filter (fun u => decide (u.id = id)) := by
        apply List.filter_congr
        intro u hu
        simp only [Function.comp_apply]
        rw [(hgproj u (List.mem_of_mem_filter hu)).1]
        simp
      rw [hp3]
      rw [filter_id_singleton (L.filter (fun u => decide (u.systemId = sel.systemId) &&
        decide (u.rowOrder ≤ sel.rowOrder))) (idsNodup_filter hid _)
        (List.mem_filter.mpr ⟨hselL, by simp⟩) hselid]
      rw [List.map_cons, List.map_nil, hgsel]
    rw [hfq2]
    have hprev2 : (L.filter (fun u => decide (u.systemId = sel.systemId) &&
        decide (u.rowOrder ≤ sel.rowOrder))).filter (fun u => !(u.id = id)) =
        L.filter (fun u => decide (u.systemId = sel.systemId) &&
          decide (u.rowOrder ≤ sel.rowOrder) && !(u.id = id)) := by
      rw [List.filter_filter]
      exact List.filter_congr (fun a _ => Bool.and_comm _ _)
    rw [hprev2, sumWin_singleton, h2win, hprevL]
    rw [sumWin_perm (sortByRowOrder_perm (L.filter (fun u =>
      decide (u.systemId = sel.systemId) && decide (u.rowOrder ≤ sel.rowOrder) &&
      !(u.id = id))))]
    rfl
  have hframe : ∀ sid2 ro2 : Nat, ¬(sel.systemId = sid2 ∧ sel.rowOrder ≤ ro2) →
      winPrefixSum L1 sid2 ro2 = winPrefixSum L sid2 ro2 := by
    intro sid2 ro2 hnr
    unfold winPrefixSum
    rw [hL1, List.filter_map]
    have hp1 : L.filter ((fun u => decide (u.systemId = sid2) &&
        decide (u.rowOrder ≤ ro2)) ∘ g) =
        L.filter (fun u => decide (u.systemId = sid2) && decide (u.rowOrder ≤ ro2)) := by
      apply List.filter_congr
      intro u hu
      obtain ⟨_, hs1, hr1⟩ := hgproj u hu
      simp only [Function.comp_apply]
      rw [hs1, hr1]
    rw [hp1]
    have hmapid : (L.filter (fun u => decide (u.systemId = sid2) &&
        decide (u.rowOrder ≤ ro2))).map g =
        (L.filter (fun u => decide (u.systemId = sid2) &&
        decide (u.rowOrder ≤ ro2))).map (fun u => u) := by
      apply List.map_eq_map_iff.mpr
      intro u hu
      have hu2 := List.mem_filter.mp hu
      have hp := hu2.2
      simp only [Bool.and_eq_true, decide_eq_true_eq] at hp
      by_cases h1 : u.id = id
      · exfalso
        have hue : u = sel := idsNodup_inj hid hu2.1 hselL (by rw [h1, hselid])
        exact hnr ⟨by rw [← hue]; exact hp.1, by rw [← hue]; exact hp.2⟩
      · exact hgwin u h1
    rw [hmapid, List.map_id']
  intro t' ht'
  unfold applyBulk at ht'
  obtain ⟨t, htmem, hteq⟩ := List.mem_map.mp ht'
  by_cases hc : t.systemId = sel.systemId ∧ sel.rowOrder < t.rowOrder
  · have hts : t ∈ sortByRowOrder subsF := by
      apply mem_sortByRowOrder.mpr
      rw [hsubsF]
      exact List.mem_filter.mpr ⟨htmem, by simp [hc.1, hc.2]⟩
    obtain ⟨as, bs, hsplit⟩ := List.append_of_mem hts
    have hnd : ((as ++ t :: bs).map (fun u => u.id)).Nodup := by
      rw [← hsplit, hsubsF]
      exact sorted_filter_ids_nodup hid1 _
    obtain ⟨t'', hlk, hid2, hsys2, hro2, hwin2, hres2, hresult2, hplace2, hrun2⟩ :=
      walk_lookup L1 sel.systemId t bs as (sumWin prevL + w) runP hnd
    have hteq2 : t' = t'' := by
      rw [← hteq, hsplit, hlk, Option.getD_some]
    refine Or.inr ?_
    rw [hteq2, hrun2, hsys2, hro2]
    congr 1
    rw [hc.1]
    rw [applyBulk_walk_winPrefix L1 L1 sel.systemId (sortByRowOrder subsF)
      (sumWin prevL + w) runP hid1 hsubsL1 sel.systemId t.rowOrder]
    rw [hsubsF] at hsplit
    rw [winPrefix_decomp L1 hsys1 sel.systemId sel.rowOrder hsplit]
    congr 1
    exact hkey.symm
  · have hlknone : lookupNew (walkSubsequent L1 sel.systemId (sortByRowOrder subsF)
        (sumWin prevL + w) runP) t.id = none := by
      apply walk_lookup_notmem
      intro x hx hxid
      have hx2 := mem_sortByRowOrder.mp hx
      rw [hsubsF] at hx2
      have hx3 := List.mem_filter.mp hx2
      have hxt : x = t := idsNodup_inj hid1 hx3.1 htmem hxid
      have hp := hx3.2
      simp only [Bool.and_eq_true, decide_eq_true_eq] at hp
      exact hc ⟨by rw [← hxt]; exact hp.1, by rw [← hxt]; exact hp.2⟩
    have hteq2 : t' = t := by
      rw [← hteq, hlknone, Option.getD_none]
    rw [hteq2]
    have htmem2 := htmem
    rw [hL1] at htmem2
    obtain ⟨t0, ht0, hgt⟩ := List.mem_map.mp htmem2
    by_cases h1 : t0.id = id
    · have ht0e : t0 = sel := idsNodup_inj hid ht0 hselL (by rw [h1, hselid])
      have hte : t = sel2 := by
        rw [← hgt, ht0e, hgsel]
      refine Or.inr ?_
      rw [hte, h2run, h2sys, h2ro]
      congr 1
      rw [applyBulk_walk_winPrefix L1 L1 sel.systemId (sortByRowOrder subsF)
        (sumWin prevL + w) runP hid1 hsubsL1 sel.systemId sel.rowOrder]
      unfold winPrefixSum
      exact hkey.symm
    · have hte : t = t0 := by
        rw [← hgt, hgwin t0 h1]
      rcases hinv t0 ht0 with hi | hi
      · exact Or.inl (by rw [hte]; exact hi)
      · refine Or.inr ?_
        rw [hte, hi]
        congr 1
        rw [applyBulk_walk_winPrefix L1 L1 sel.systemId (sortByRowOrder subsF)
          (sumWin prevL + w) runP hid1 hsubsL1 t0.systemId t0.rowOrder]
        rw [hframe t0.systemId t0.rowOrder ?hnr3]
        case hnr3 =>
          rintro ⟨ha, hb⟩
          rcases Nat.lt_or_ge sel.rowOrder t0.rowOrder with h2 | h2
          · refine hc ?_
            rw [hte]
            exact ⟨ha.symm, h2⟩
          · have he : sel.rowOrder = t0.rowOrder := Nat.le_antisymm hb h2
            have hts0 : t0 = sel := sysOrders_inj hsys ht0 hselL ha.symm he.symm
            exact h1 (by rw [hts0, hselid])

/-- `updateSelectionResults` preserves the correct-when-present prefix-sum
invariant. -/
theorem update_InvWin (L : List Selection) (id : Nat) (result : RaceResult)
    (winBsp : ℚ) (placeBsp : Option ℚ) (hid : idsNodup L) (hsys : sysOrdersNodup L)
    (hinv : InvWin L) :
    InvWin (updateSelectionResults L id result winBsp placeBsp) := by
  cases hg : getById L id with
  | none =>
    unfold updateSelectionResults
    rw [hg]
    exact hinv
  | some sel =>
    obtain ⟨hselL, hselid⟩ := getById_mem hg
    unfold updateSelectionResults
    rw [hg]
    exact update_walk_InvWin L sel _ id (calculateWinPL result winBsp) _
      hid hsys hinv hselL hselid rfl rfl rfl rfl rfl

theorem foldl_fixed {α β : Type} (f : β → α → β) (l : List α) (init : β)
    (h : ∀ (acc : β), ∀ r ∈ l, f acc r = acc) : l.foldl f init = init := by
  induction l generalizing init with
  | nil => rfl
  | cons a rest ih =>
    rw [List.foldl_cons, h init a (List.mem_cons_self a rest)]
    exact ih init (fun acc r hr => h acc r (List.mem_cons_of_mem a hr))

theorem collect_go_mono {cands : List Selection} {u : UpdateRec} :
    ∀ (fd : List FeedRow) (acc : List UpdateRec), u ∈ acc →
    u ∈ fd.foldl (fun acc r =>
      if r.dateISO = "" || r.time = "" || r.horse = "" then acc
      else
        match selMapLookup cands (feedKey r) with
        | none => acc
        | some s =>
          if s.hasResult then acc
          else if validSP r.betfairSP then acc ++ [mkUpdate s r (r.betfairSP.getD 0)]
          else acc) acc := by
  intro fd
  induction fd with
  | nil => intro acc h; exact h
  | cons a rest ih =>
    intro acc h
    rw [List.foldl_cons]
    apply ih
    split
    · exact h
    · split
      · exact h
      · split
        · exact h
        · split
          · exact List.mem_append_left _ h
          · exact h

/-- A well-formed feed row matched to an unsettled selection with a valid
settlement price does collect its update. -/
theorem collectUpdates_intro {cands : List Selection} {feed : List FeedRow}
    {r : FeedRow} (hr : r ∈ feed) (hd : ¬(r.dateISO = "")) (htm : ¬(r.time = ""))
    (hh : ¬(r.horse = "")) {s : Selection}
    (hlk : selMapLookup cands (feedKey r) = some s) (hres : s.hasResult = false)
    (hsp : validSP r.betfairSP = true) :
    mkUpdate s r (r.betfairSP.getD 0) ∈ collectUpdates cands feed := by
  unfold collectUpdates
  suffices H : ∀ (fd : List FeedRow) (acc : List UpdateRec), r ∈ fd →
      mkUpdate s r (r.betfairSP.getD 0) ∈ fd.foldl (fun acc r =>
        if r.dateISO = "" || r.time = "" || r.horse = "" then acc
        else
          match selMapLookup cands (feedKey r) with
          | none => acc
          | some s =>
            if s.hasResult then acc
            else if validSP r.betfairSP then acc ++ [mkUpdate s r (r.betfairSP.getD 0)]
            else acc) acc from H feed [] hr
  intro fd
  induction fd with
  | nil => intro acc h; exact absurd h (List.not_mem_nil r)
  | cons a rest ih =>
    intro acc hmem
    rw [List.foldl_cons]
    rcases List.mem_cons.mp hmem with h1 | h1
    · subst h1
      have hstep : (if r.dateISO = "" || r.time = "" || r.horse = "" then acc
          else
            match selMapLookup cands (feedKey r) with
            | none => acc
            | some s =>
              if s.hasResult then acc
              else if validSP r.betfairSP then acc ++ [mkUpdate s r (r.betfairSP.getD 0)]
              else acc) = acc ++ [mkUpdate s r (r.betfairSP.getD 0)] := by
        simp [hd, htm, hh, hlk, hres, hsp]
      rw [hstep]
      exact collect_go_mono rest _
        (List.mem_append_right acc (List.mem_singleton.mpr rfl))
    · exact ih _ h1

theorem keys_inj {cands : List Selection} (h : (cands.map selKey).Nodup)
    {a b : Selection} (ha : a ∈ cands) (hb : b ∈ cands)
    (hk : selKey a = selKey b) : a = b :=
  List.inj_on_of_nodup_map h ha hb hk

theorem candidatesOf_mem_iff {L : List Selection} {feed : List FeedRow}
    {c : Selection} :
    c ∈ candidatesOf L feed ↔ (c ∈ L ∧
      c.dateISO ∈ (feed.filter (fun r => !(r.dateISO = ""))).map (fun r => r.dateISO) ∧
      c.hasResult = false) := by
  unfold candidatesOf
  rw [List.mem_filter]
  simp only [Bool.and_eq_true, decide_eq_true_eq, Bool.not_eq_true']

/-- Settlement ingestion is idempotent when no two candidates collide on a
match key: the second run collects no update at all. -/
theorem upload_idem (L : List Selection) (feed : List FeedRow) (hid : idsNodup L)
    (hsys : sysOrdersNodup L)
    (hkeys : ((candidatesOf L feed).map selKey).Nodup) :
    uploadResultsFromCSV (uploadResultsFromCSV L feed) feed =
      uploadResultsFromCSV L feed := by
  set L2 := uploadResultsFromCSV L feed with hL2
  have hchar : L2 = L.map (uploadStep L feed) := by
    rw [hL2]
    exact uploadResultsFromCSV_char L feed hid hsys
  have hemp : batchUps L2 feed = [] := by
    unfold batchUps collectUpdates
    apply foldl_fixed
    intro acc r hr
    split
    · rfl
    · rename_i hfields
      split
      · rfl
      · rename_i s hlk2
        split
        · rfl
        · rename_i hres2
          split
          · rename_i hsp2
            exfalso
            simp only [Bool.or_eq_true, decide_eq_true_eq, not_or] at hfields
            have hsres : s.hasResult = false := by
              cases h2 : s.hasResult
              · rfl
              · exact absurd h2 hres2
            obtain ⟨hs2c, hs2k⟩ := selMapLookup_mem hlk2
            have hs2 := candidatesOf_mem_iff.mp hs2c
            have hdate := hs2.2.1
            have hsL2 : s ∈ L2 := hs2.1
            rw [hchar] at hsL2
            obtain ⟨s0, hs0L, hs0e⟩ := List.mem_map.mp hsL2
            have hulk : updLookup (batchUps L feed) s0.id = none := by
              cases hu : updLookup (batchUps L feed) s0.id with
              | none => rfl
              | some u =>
                exfalso
                have h3 : s.hasResult = true := by
                  rw [← hs0e]
                  exact uploadStep_hasResult_some hu
                rw [hsres] at h3
                exact Bool.false_ne_true h3
            have hs0res : s0.hasResult = false := by
              rw [← uploadStep_hasResult_none hulk, hs0e]
              exact hsres
            have hs0date : s0.dateISO = s.dateISO := by
              rw [← hs0e, uploadStep_dateISO]
            have hs0cand : s0 ∈ candidatesOf L feed :=
              candidatesOf_mem_iff.mpr ⟨hs0L, by rw [hs0date]; exact hdate, hs0res⟩
            have hs0key : selKey s0 = feedKey r := by
              rw [← uploadStep_selKey L feed s0, hs0e]
              exact hs2k
            obtain ⟨v, hv, hvc, hvk⟩ := selMapLookup_isSome hs0cand hs0key
            have hvs0 : v = s0 := keys_inj hkeys hvc hs0cand (by rw [hvk, hs0key])
            have hlk1 : selMapLookup (candidatesOf L feed) (feedKey r) = some s0 := by
              rw [hv, hvs0]
            have hmem1 : mkUpdate s0 r (r.betfairSP.getD 0) ∈
                collectUpdates (candidatesOf L feed) feed :=
              collectUpdates_intro hr hfields.1.1 hfields.1.2 hfields.2 hlk1 hs0res hsp2
            have hmem2 : mkUpdate s0 r (r.betfairSP.getD 0) ∈ batchUps L feed := hmem1
            obtain ⟨y, hy, _, _⟩ :=
              updLookup_isSome hmem2 (mkUpdate_selectionId s0 r _)
            rw [hulk] at hy
            exact Option.noConfusion hy
          · rfl
  simp only [uploadResultsFromCSV, applyBulk, hemp]
  simp [lookupNew_nil]

theorem lastMatch_single {q : Type} (p : q → Bool) (u : q) :
    lastMatch p [u] = if p u then some u else none := rfl

theorem updLookup_append_last {ups : List UpdateRec} {u : UpdateRec} {id : Nat}
    (hu : u.selectionId = id) :
    updLookup (ups ++ [u]) id = some u := by
  unfold updLookup
  rw [lastMatch_append]
  have h1 : lastMatch (fun v => decide (v.selectionId = id)) [u] = some u := by
    rw [lastMatch_single]
    simp [hu]
  rw [h1]

/-- Appending a well-formed matched feed row with a valid price to the batch
appends its update last. -/
theorem collectUpdates_append_last (cands : List Selection) (fs : List FeedRow)
    (r : FeedRow) (hd : ¬(r.dateISO = "")) (htm : ¬(r.time = "")) (hh : ¬(r.horse = ""))
    {s : Selection} (hlk : selMapLookup cands (feedKey r) = some s)
    (hres : s.hasResult = false) (hsp : validSP r.betfairSP = true) :
    collectUpdates cands (fs ++ [r]) =
      collectUpdates cands fs ++ [mkUpdate s r (r.betfairSP.getD 0)] := by
  unfold collectUpdates
  rw [List.foldl_append, List.foldl_cons, List.foldl_nil]
  simp [hd, htm, hh, hlk, hres, hsp]

theorem foldl_max_le_init : ∀ (l : List Selection) (m : Nat),
    m ≤ l.foldl (fun m s => max m s.rowOrder) m := by
  intro l
  induction l with
  | nil => intro m; exact Nat.le_refl m
  | cons a rest ih =>
    intro m
    rw [List.foldl_cons]
    exact Nat.le_trans (Nat.le_max_left m a.rowOrder) (ih _)

theorem foldl_max_mem : ∀ (l : List Selection) (m : Nat) (s : Selection), s ∈ l →
    s.rowOrder ≤ l.foldl (fun m s => max m s.rowOrder) m := by
  intro l
  induction l with
  | nil => intro m s hs; exact absurd hs (List.not_mem_nil s)
  | cons a rest ih =>
    intro m s hs
    rw [List.foldl_cons]
    rcases List.mem_cons.mp hs with h1 | h1
    · subst h1
      exact Nat.le_trans (Nat.le_max_right m s.rowOrder) (foldl_max_le_init rest _)
    · exact ih _ s h1

theorem maxRowOrder_ge {L : List Selection} {sys : Nat} {s : Selection}
    (hs : s ∈ L) (hsy : s.systemId = sys) : s.rowOrder ≤ maxRowOrder L sys := by
  unfold maxRowOrder
  exact foldl_max_mem _ 0 s (List.mem_filter.mpr ⟨hs, by simp [hsy]⟩)

theorem maxRowOrder_append (L : List Selection) (r : Selection) (sys : Nat) :
    maxRowOrder (L ++ [r]) sys =
      if r.systemId = sys then max (maxRowOrder L sys) r.rowOrder
      else maxRowOrder L sys := by
  unfold maxRowOrder
  rw [List.filter_append, List.foldl_append]
  by_cases h1 : r.systemId = sys
  · rw [if_pos h1]
    rw [show List.filter (fun s => decide (s.systemId = sys)) [r] = [r] from by simp [h1]]
    rfl
  · rw [if_neg h1]
    rw [show List.filter (fun s => decide (s.systemId = sys)) [r] = [] from by simp [h1]]
    rfl

theorem pairLookup_mem : ∀ (ps : List (Nat × Nat)) (sys c : Nat),
    ps.foldl (fun acc p => if p.1 = sys then some p.2 else acc) none = some c →
    ∃ p ∈ ps, p.1 = sys ∧ p.2 = c := by
  suffices H : ∀ (ps : List (Nat × Nat)) (sys c : Nat) (acc : Option Nat),
      ps.foldl (fun acc p => if p.1 = sys then some p.2 else acc) acc = some c →
      acc = some c ∨ ∃ p ∈ ps, p.1 = sys ∧ p.2 = c by
    intro ps sys c h
    rcases H ps sys c none h with h1 | h1
    · exact Option.noConfusion h1
    · exact h1
  intro ps
  induction ps with
  | nil => intro sys c acc h; exact Or.inl h
  | cons p rest ih =>
    intro sys c acc h
    rw [List.foldl_cons] at h
    rcases ih sys c _ h with h1 | h1
    · by_cases h2 : p.1 = sys
      · rw [if_pos h2] at h1
        exact Or.inr ⟨p, List.mem_cons_self p rest, h2, Option.some.inj h1⟩
      · rw [if_neg h2] at h1
        exact Or.inl h1
    · obtain ⟨q, hq, hq2⟩ := h1
      exact Or.inr ⟨q, List.mem_cons_of_mem p hq, hq2⟩

theorem createSelection_valid_eq {systems : List Nat} {L : List Selection}
    {inp : NewSelectionInput} {newId : Nat}
    (hv : validNewSelection systems inp = true) :
    createSelection systems L inp newId =
      L ++ [newSelRecord inp newId (maxRowOrder L inp.systemId + 1)] := by
  unfold createSelection
  rw [if_pos hv]

theorem createSelection_invalid_eq {systems : List Nat} {L : List Selection}
    {inp : NewSelectionInput} {newId : Nat}
    (hv : ¬ validNewSelection systems inp = true) :
    createSelection systems L inp newId = L := by
  unfold createSelection
  rw [if_neg hv]

/-- Creating a selection keeps per-system row orders pairwise distinct: the
new row's order exceeds the system maximum. -/
theorem createSelection_sysOrders (systems : List Nat) (L : List Selection)
    (inp : NewSelectionInput) (newId : Nat) (hsys : sysOrdersNodup L) :
    sysOrdersNodup (createSelection systems L inp newId) := by
  unfold createSelection
  by_cases hv : validNewSelection systems inp = true
  · rw [if_pos hv]
    intro sys
    rw [List.filter_append, List.map_append]
    by_cases h1 : inp.systemId = sys
    · have hf : List.filter (fun s => decide (s.systemId = sys))
          [newSelRecord inp newId (maxRowOrder L inp.systemId + 1)] =
          [newSelRecord inp newId (maxRowOrder L inp.systemId + 1)] := by
        simp [newSelRecord, h1]
      rw [hf, List.map_cons, List.map_nil, List.nodup_append]
      refine ⟨hsys sys, List.nodup_singleton _, ?_⟩
      intro x hx hx2
      rw [List.mem_singleton] at hx2
      obtain ⟨s, hsm, hsro⟩ := List.mem_map.mp hx
      have hs2 := List.mem_filter.mp hsm
      have hle : s.rowOrder ≤ maxRowOrder L sys :=
        maxRowOrder_ge hs2.1 (by simpa using hs2.2)
      rw [hx2] at hsro
      have h3 : s.rowOrder = maxRowOrder L inp.systemId + 1 := hsro
      rw [h1] at h3
      omega
    · have hf : List.filter (fun s => decide (s.systemId = sys))
          [newSelRecord inp newId (maxRowOrder L inp.systemId + 1)] = [] := by
        simp [newSelRecord, h1]
      rw [hf, List.map_nil, List.append_nil]
      exact hsys sys
  · rw [if_neg hv]
    exact hsys

theorem createBulkStep_invalid {systems : List Nat}
    {st : List Selection × List (Nat × Nat)} {item : NewSelectionInput × Nat}
    (hv : ¬ validNewSelection systems item.1 = true) :
    createBulkStep systems st item = st := by
  simp only [createBulkStep]
  rw [if_neg hv]

/-- Under the counter invariant the bulk step seeds from the live maximum:
every stored counter is positive and equal to the current system maximum, so
the `counter || max` fallback always evaluates to the maximum. -/
theorem createBulkStep_valid_eq {systems : List Nat}
    {st : List Selection × List (Nat × Nat)} {item : NewSelectionInput × Nat}
    (hv : validNewSelection systems item.1 = true)
    (hinvar : ∀ p ∈ st.2, p.2 = maxRowOrder st.1 p.1 ∧ 0 < p.2) :
    createBulkStep systems st item =
      (st.1 ++ [newSelRecord item.1 item.2 (maxRowOrder st.1 item.1.systemId + 1)],
       st.2.filter (fun p => !(p.1 = item.1.systemId)) ++
         [(item.1.systemId, maxRowOrder st.1 item.1.systemId + 1)]) := by
  simp only [createBulkStep]
  rw [if_pos hv]
  have hbase : (match (st.2.foldl (fun acc p =>
      if p.1 = item.1.systemId then some p.2 else acc) none) with
      | some c => if c = 0 then maxRowOrder st.1 item.1.systemId else c
      | none => maxRowOrder st.1 item.1.systemId) =
      maxRowOrder st.1 item.1.systemId := by
    cases hc : st.2.foldl (fun acc p =>
        if p.1 = item.1.systemId then some p.2 else acc) none with
    | none => rfl
    | some c =>
      obtain ⟨p, hp, hp1, hp2⟩ := pairLookup_mem st.2 item.1.systemId c hc
      have h3 := hinvar p hp
      have hc0 : ¬ c = 0 := by omega
      show (if c = 0 then maxRowOrder st.1 item.1.systemId else c) =
        maxRowOrder st.1 item.1.systemId
      rw [if_neg hc0, ← hp2, h3.1, hp1]
  rw [hbase]

/-- The bulk creation endpoint acts exactly as iterating the single-creation
endpoint over its items. -/
theorem createBulk_eq_iter (systems : List Nat) (L : List Selection)
    (items : List (NewSelectionInput × Nat)) :
    createBulkSelections systems L items =
      items.foldl (fun acc it => createSelection systems acc it.1 it.2) L := by
  unfold createBulkSelections
  suffices H : ∀ (its : List (NewSelectionInput × Nat))
      (st : List Selection × List (Nat × Nat)),
      (∀ p ∈ st.2, p.2 = maxRowOrder st.1 p.1 ∧ 0 < p.2) →
      (its.foldl (createBulkStep systems) st).1 =
        its.foldl (fun acc it => createSelection systems acc it.1 it.2) st.1 from
    H items (L, []) (fun p hp => absurd hp (List.not_mem_nil p))
  intro its
  induction its with
  | nil => intro st _; rfl
  | cons it rest ih =>
    intro st hinvar
    rw [List.foldl_cons, List.foldl_cons]
    by_cases hv : validNewSelection systems it.1 = true
    · rw [createBulkStep_valid_eq hv hinvar, createSelection_valid_eq hv]
      apply ih
      intro p hp
      rcases List.mem_append.mp hp with h1 | h1
      · have h2 := List.mem_filter.mp h1
        have h3 := hinvar p h2.1
        have hne : ¬ p.1 = it.1.systemId := by simpa using h2.2
        constructor
        · rw [h3.1, maxRowOrder_append, if_neg (fun he => hne he.symm)]
        · exact h3.2
      · rw [List.mem_singleton] at h1
        subst h1
        constructor
        · show maxRowOrder st.1 it.1.systemId + 1 =
            maxRowOrder (st.1 ++ [newSelRecord it.1 it.2
              (maxRowOrder st.1 it.1.systemId + 1)]) it.1.systemId
          rw [maxRowOrder_append, if_pos (show (newSelRecord it.1 it.2
            (maxRowOrder st.1 it.1.systemId + 1)).systemId = it.1.systemId from rfl)]
          show maxRowOrder st.1 it.1.systemId + 1 =
            max (maxRowOrder st.1 it.1.systemId) (maxRowOrder st.1 it.1.systemId + 1)
          omega
        · exact Nat.succ_pos _
    · rw [createBulkStep_invalid hv, createSelection_invalid_eq hv]
      exact ih st hinvar

/-- The CSV selection upload acts exactly as iterating the single-creation
endpoint over its parsed rows, provided each row carries a time (the CSV
flow also skips time-less rows, which the single endpoint would accept). -/
theorem csv_eq_iter (systems : List Nat) (L : List Selection) (sys : Nat)
    (rows : List (CsvSelectionRow × Nat)) (hs : sys ∈ systems)
    (ht : ∀ it ∈ rows, ¬(it.1.time = "")) :
    uploadSelectionsFromCSV systems L sys rows =
      rows.foldl (fun acc it => createSelection systems acc
        ⟨sys, it.1.dateISO, none, it.1.meeting, it.1.time, it.1.horse⟩ it.2) L := by
  unfold uploadSelectionsFromCSV
  rw [if_pos (by simp [hs])]
  suffices H : ∀ (rs : List (CsvSelectionRow × Nat)) (st : List Selection × Nat),
      (∀ it ∈ rs, ¬(it.1.time = "")) → st.2 = maxRowOrder st.1 sys →
      (rs.foldl (fun st item =>
        if item.1.dateISO = "" || item.1.time = "" || item.1.horse = "" then st
        else (st.1 ++ [newSelRecord ⟨sys, item.1.dateISO, none, item.1.meeting,
          item.1.time, item.1.horse⟩ item.2 (st.2 + 1)], st.2 + 1)) st).1 =
      rs.foldl (fun acc it => createSelection systems acc
        ⟨sys, it.1.dateISO, none, it.1.meeting, it.1.time, it.1.horse⟩ it.2) st.1 from
    H rows (L, maxRowOrder L sys) ht rfl
  intro rs
  induction rs with
  | nil => intro st _ _; rfl
  | cons it rest ih =>
    intro st hts hinv
    rw [List.foldl_cons, List.foldl_cons]
    have htime : ¬ (it.1.time = "") := hts it (List.mem_cons_self it rest)
    have hts2 : ∀ x ∈ rest, ¬(x.1.time = "") :=
      fun x hx => hts x (List.mem_cons_of_mem it hx)
    by_cases hd : it.1.dateISO = ""
    · rw [show (if it.1.dateISO = "" || it.1.time = "" || it.1.horse = "" then st
          else (st.1 ++ [newSelRecord ⟨sys, it.1.dateISO, none, it.1.meeting,
            it.1.time, it.1.horse⟩ it.2 (st.2 + 1)], st.2 + 1)) = st from by
        simp [hd]]
      rw [createSelection_invalid_eq (by simp [validNewSelection, hd])]
      exact ih st hts2 hinv
    · by_cases hh : it.1.horse = ""
      · rw [show (if it.1.dateISO = "" || it.1.time = "" || it.1.horse = "" then st
            else (st.1 ++ [newSelRecord ⟨sys, it.1.dateISO, none, it.1.meeting,
              it.1.time, it.1.horse⟩ it.2 (st.2 + 1)], st.2 + 1)) = st from by
          simp [hh]]
        rw [createSelection_invalid_eq (by simp [validNewSelection, hh])]
        exact ih st hts2 hinv
      · rw [show (if it.1.dateISO = "" || it.1.time = "" || it.1.horse = "" then st
            else (st.1 ++ [newSelRecord ⟨sys, it.1.dateISO, none, it.1.meeting,
              it.1.time, it.1.horse⟩ it.2 (st.2 + 1)], st.2 + 1)) =
            (st.1 ++ [newSelRecord ⟨sys, it.1.dateISO, none, it.1.meeting,
              it.1.time, it.1.horse⟩ it.2 (st.2 + 1)], st.2 + 1) from by
          simp [hd, htime, hh]]
        rw [createSelection_valid_eq (show validNewSelection systems
          ⟨sys, it.1.dateISO, none, it.1.meeting, it.1.time, it.1.horse⟩ = true from by
          simp [validNewSelection, hs, hd, hh])]
        have hro : st.2 + 1 = maxRowOrder st.1
            (⟨sys, it.1.dateISO, none, it.1.meeting, it.1.time, it.1.horse⟩ :
              NewSelectionInput).systemId + 1 := by
          show st.2 + 1 = maxRowOrder st.1 sys + 1
          omega
        rw [← hro]
        apply ih _ hts2
        show st.2 + 1 = maxRowOrder (st.1 ++ [newSelRecord ⟨sys, it.1.dateISO, none,
          it.1.meeting, it.1.time, it.1.horse⟩ it.2 (st.2 + 1)]) sys
        rw [maxRowOrder_append, if_pos (show (newSelRecord ⟨sys, it.1.dateISO, none,
          it.1.meeting, it.1.time, it.1.horse⟩ it.2 (st.2 + 1)).systemId = sys from rfl)]
        show st.2 + 1 = max (maxRowOrder st.1 sys) (st.2 + 1)
        omega

/-- C2: the win-market P/L function returns `1 - winBsp` for WON, `0.98`
for LOST, `0` for NR, VOID and CANCELLED, and `0.98` (treated as LOST) for
PLACED in the controller variant — the variant that can receive PLACED from
a non-place system; the results-upload variant agrees with it on every
result its own derivation (`deriveResultV2`) can produce. -/
theorem C2_winPL_table : ∀ b : ℚ,
    calculateWinPL .WON b = 1 - b ∧
    calculateWinPL .LOST b = 98 / 100 ∧
    calculateWinPL .NR b = 0 ∧
    calculateWinPL .VOID b = 0 ∧
    calculateWinPL .CANCELLED b = 0 ∧
    calculateWinPL .PLACED b = 98 / 100 ∧
    calculateWinPLResults .WON b = 1 - b ∧
    calculateWinPLResults .LOST b = 98 / 100 ∧
    calculateWinPLResults .NR b = 0 ∧
    calculateWinPLResults .VOID b = 0 ∧
    calculateWinPLResults .CANCELLED b = 0 ∧
    (∀ lay : Option ℚ, calculateWinPLResults (deriveResultV2 lay) b =
      calculateWinPL (deriveResultV2 lay) b) := by
  intro b
  refine ⟨rfl, rfl, rfl, rfl, rfl, rfl, rfl, rfl, rfl, rfl, rfl, ?_⟩
  intro lay
  unfold deriveResultV2
  cases hc : (match lay with | some v => decide (v < 0) | none => false)
  · rw [if_neg (by simp [hc])]
    rfl
  · rw [if_pos (by simp [hc])]
    rfl

/-- C6 counterexample: the place-market P/L function does not return `0` for
NR (nor VOID or CANCELLED); every result other than WON and PLACED falls
through to `return 0.98`. -/
theorem C6_counterexample : ¬ (calculatePlacePL .NR (some 2) = 0) := by
  intro h
  rw [show calculatePlacePL RaceResult.NR (some 2) = 98 / 100 from rfl] at h
  norm_num at h

/-- C6 amended: the true place P/L table — `1 - placeBsp` for WON/PLACED
with a price, `1` for WON (and, via the JS null coercion, PLACED) without
one, and `0.98` for every other result including NR, VOID and CANCELLED. -/
theorem C6_amended : ∀ (b : ℚ) (pb : Option ℚ),
    calculatePlacePL .WON (some b) = 1 - b ∧
    calculatePlacePL .WON none = 1 ∧
    calculatePlacePL .PLACED (some b) = 1 - b ∧
    calculatePlacePL .PLACED none = 1 ∧
    calculatePlacePL .LOST pb = 98 / 100 ∧
    calculatePlacePL .NR pb = 98 / 100 ∧
    calculatePlacePL .VOID pb = 98 / 100 ∧
    calculatePlacePL .CANCELLED pb = 98 / 100 := by
  intro b pb
  refine ⟨rfl, rfl, rfl, ?_, rfl, rfl, rfl, rfl⟩
  show (1 : ℚ) - 0 = 1
  norm_num

/-- C8: `normalizeTime` does not always strip the seconds and zero-pad to
`HH:MM`: a single-digit hour with seconds keeps only five characters of
`H:MM:SS`, producing `H:MM:` with a trailing separator instead of the
claimed `0H:MM`, so the same instant written with and without seconds
yields two different match keys. -/
theorem C8_normalizeTime_bug :
    normalizeTime "9:05" = "09:05" ∧
    normalizeTime "9:05:30" = "9:05:" ∧
    ¬ (normalizeTime "9:05:30" = "09:05") ∧
    ¬ (normalizeTime "9:05:30" = normalizeTime "9:05") := by
  refine ⟨by decide, by decide, by decide, by decide⟩

/-- C10: the bulk delete endpoint only removes documents — the survivors
are exactly the original documents, so every selection not matched by the
filter keeps its `runningWinPL` and `runningPlacePL` untouched, even when
deleted rows carried results. -/
theorem C10_delete_frame (L : List Selection) (q : DeleteQuery) :
    List.Sublist (deleteSelections L q) L ∧
    ∀ s ∈ L, matchesQuery q s = false → s ∈ deleteSelections L q := by
  unfold deleteSelections
  split
  · exact ⟨List.Sublist.refl L, fun s hs _ => hs⟩
  · refine ⟨List.filter_sublist L, ?_⟩
    intro s hs hm
    exact List.mem_filter.mpr ⟨hs, by simp [hm]⟩

/-- C10 witness: a one-row ledger and a filter on another system keep the
row, unchanged, in the result. -/
theorem C10_delete_frame_witness :
    List.Sublist (deleteSelections [mkSel 1 1 1 "2025-01-01" "10:00" "alpha"]
      ⟨some 2, none, none, none⟩) [mkSel 1 1 1 "2025-01-01" "10:00" "alpha"] ∧
    mkSel 1 1 1 "2025-01-01" "10:00" "alpha" ∈
      deleteSelections [mkSel 1 1 1 "2025-01-01" "10:00" "alpha"]
        ⟨some 2, none, none, none⟩ :=
  ⟨(C10_delete_frame [mkSel 1 1 1 "2025-01-01" "10:00" "alpha"]
      ⟨some 2, none, none, none⟩).1,
   (C10_delete_frame [mkSel 1 1 1 "2025-01-01" "10:00" "alpha"]
      ⟨some 2, none, none, none⟩).2 (mkSel 1 1 1 "2025-01-01" "10:00" "alpha")
      (by decide) (by decide)⟩

/-- C4: a selection all of whose matching feed rows lack a valid settlement
price is skipped without any result state change: the batch acts as the
per-row map, and the row's image keeps `hasResult`, `result` and `winPL`
exactly as they were, so it stays eligible for a future batch. -/
theorem C4_skip_no_price (L : List Selection) (feed : List FeedRow)
    (hid : idsNodup L) (hsys : sysOrdersNodup L) {s : Selection} (hs : s ∈ L)
    (hmatch : ∀ r ∈ feed, feedKey r = selKey s → validSP r.betfairSP = false) :
    uploadResultsFromCSV L feed = L.map (uploadStep L feed) ∧
    (uploadStep L feed s).hasResult = s.hasResult ∧
    (uploadStep L feed s).result = s.result ∧
    (uploadStep L feed s).winPL = s.winPL := by
  have hu : updLookup (batchUps L feed) s.id = none := by
    cases hu2 : updLookup (batchUps L feed) s.id with
    | none => rfl
    | some u =>
      exfalso
      have hm := updLookup_mem hu2
      obtain ⟨c, hc, r, hrf, hlk, hcres, hsp, hue⟩ := collectUpdates_mem hm.1
      have hcid : c.id = s.id := by
        rw [← mkUpdate_selectionId c r (r.betfairSP.getD 0), ← hue]
        exact hm.2
      have hcL : c ∈ L := (candidatesOf_mem hc).1
      have hcs : c = s := idsNodup_inj hid hcL hs hcid
      have hkey : feedKey r = selKey s := by
        rw [← hcs]
        exact ((selMapLookup_mem hlk).2).symm
      rw [hmatch r hrf hkey] at hsp
      exact Bool.false_ne_true hsp
  exact ⟨uploadResultsFromCSV_char L feed hid hsys, uploadStep_hasResult_none hu,
    uploadStep_result_none hu, uploadStep_winPL_none hu⟩

/-- C4 witness: a one-row ledger and a matching feed row without a price;
nothing about the row changes. -/
theorem C4_skip_no_price_witness :
    uploadResultsFromCSV [mkSel 1 1 1 "2025-01-01" "10:00" "alpha"]
        [⟨"2025-01-01", "10:00", "alpha", "", "", none, none⟩] =
      [mkSel 1 1 1 "2025-01-01" "10:00" "alpha"].map
        (uploadStep [mkSel 1 1 1 "2025-01-01" "10:00" "alpha"]
          [⟨"2025-01-01", "10:00", "alpha", "", "", none, none⟩]) ∧
    (uploadStep [mkSel 1 1 1 "2025-01-01" "10:00" "alpha"]
        [⟨"2025-01-01", "10:00", "alpha", "", "", none, none⟩]
        (mkSel 1 1 1 "2025-01-01" "10:00" "alpha")).hasResult =
      (mkSel 1 1 1 "2025-01-01" "10:00" "alpha").hasResult ∧
    (uploadStep [mkSel 1 1 1 "2025-01-01" "10:00" "alpha"]
        [⟨"2025-01-01", "10:00", "alpha", "", "", none, none⟩]
        (mkSel 1 1 1 "2025-01-01" "10:00" "alpha")).result =
      (mkSel 1 1 1 "2025-01-01" "10:00" "alpha").result ∧
    (uploadStep [mkSel 1 1 1 "2025-01-01" "10:00" "alpha"]
        [⟨"2025-01-01", "10:00", "alpha", "", "", none, none⟩]
        (mkSel 1 1 1 "2025-01-01" "10:00" "alpha")).winPL =
      (mkSel 1 1 1 "2025-01-01" "10:00" "alpha").winPL :=
  C4_skip_no_price [mkSel 1 1 1 "2025-01-01" "10:00" "alpha"]
    [⟨"2025-01-01", "10:00", "alpha", "", "", none, none⟩]
    (by unfold idsNodup; decide)
    (fun sys => ((List.filter_sublist [mkSel 1 1 1 "2025-01-01" "10:00" "alpha"]).map
      (fun s => s.rowOrder)).nodup (by decide))
    (by decide) (by decide)

/-- C7: every creation path assigns `rowOrder = max(existing for the
system) + 1`: the single endpoint appends exactly that record and keeps
per-system row orders unique, and the bulk and CSV endpoints are equal to
iterating the single endpoint (the CSV flow additionally skips time-less
rows, which the hypothesis excludes). -/
theorem C7_rowOrder_assignment :
    (∀ (systems : List Nat) (L : List Selection) (inp : NewSelectionInput)
      (newId : Nat), validNewSelection systems inp = true →
      createSelection systems L inp newId =
        L ++ [newSelRecord inp newId (maxRowOrder L inp.systemId + 1)]) ∧
    (∀ (systems : List Nat) (L : List Selection) (inp : NewSelectionInput)
      (newId : Nat), sysOrdersNodup L →
      sysOrdersNodup (createSelection systems L inp newId)) ∧
    (∀ (systems : List Nat) (L : List Selection)
      (items : List (NewSelectionInput × Nat)),
      createBulkSelections systems L items =
        items.foldl (fun acc it => createSelection systems acc it.1 it.2) L) ∧
    (∀ (systems : List Nat) (L : List Selection) (sys : Nat)
      (rows : List (CsvSelectionRow × Nat)), sys ∈ systems →
      (∀ it ∈ rows, ¬(it.1.time = "")) →
      uploadSelectionsFromCSV systems L sys rows =
        rows.foldl (fun acc it => createSelection systems acc
          ⟨sys, it.1.dateISO, none, it.1.meeting, it.1.time, it.1.horse⟩ it.2) L) :=
  ⟨fun _ _ _ _ hv => createSelection_valid_eq hv,
   fun systems L inp newId hsys => createSelection_sysOrders systems L inp newId hsys,
   createBulk_eq_iter,
   fun systems L sys rows hs ht => csv_eq_iter systems L sys rows hs ht⟩

/-- C7 witness: concrete single, bulk and CSV creations into an empty
ledger, each yielding `rowOrder 1`. -/
theorem C7_rowOrder_assignment_witness :
    createSelection [1] [] ⟨1, "2025-01-01", none, none, "10:00", "alpha"⟩ 5 =
      [] ++ [newSelRecord ⟨1, "2025-01-01", none, none, "10:00", "alpha"⟩ 5
        (maxRowOrder []
          (⟨1, "2025-01-01", none, none, "10:00", "alpha"⟩ :
            NewSelectionInput).systemId + 1)] ∧
    sysOrdersNodup (createSelection [1] []
      ⟨1, "2025-01-01", none, none, "10:00", "alpha"⟩ 5) ∧
    createBulkSelections [1] []
        [(⟨1, "2025-01-01", none, none, "10:00", "alpha"⟩, 5)] =
      [((⟨1, "2025-01-01", none, none, "10:00", "alpha"⟩ : NewSelectionInput), 5)].foldl
        (fun acc it => createSelection [1] acc it.1 it.2) [] ∧
    uploadSelectionsFromCSV [1] [] 1 [(⟨"2025-01-02", "11:00", "beta", none⟩, 7)] =
      [((⟨"2025-01-02", "11:00", "beta", none⟩ : CsvSelectionRow), 7)].foldl
        (fun acc it => createSelection [1] acc
          ⟨1, it.1.dateISO, none, it.1.meeting, it.1.time, it.1.horse⟩ it.2) [] :=
  ⟨C7_rowOrder_assignment.1 [1] [] ⟨1, "2025-01-01", none, none, "10:00", "alpha"⟩ 5
     (by decide),
   C7_rowOrder_assignment.2.1 [1] [] ⟨1, "2025-01-01", none, none, "10:00", "alpha"⟩ 5
     (fun sys => List.nodup_nil),
   C7_rowOrder_assignment.2.2.1 [1] []
     [(⟨1, "2025-01-01", none, none, "10:00", "alpha"⟩, 5)],
   C7_rowOrder_assignment.2.2.2 [1] [] 1 [(⟨"2025-01-02", "11:00", "beta", none⟩, 7)]
     (by decide) (by decide)⟩

/-- C9 amended: when several feed rows of one batch share a match key, the
LAST such row wins — every one of them collects an update against the same
map entry, `Map.set` overwrite keeps the last, and none of them is reported
as an unmatched selection (the key was hit). -/
theorem C9_duplicate_rows_last_wins (L : List Selection) (fs : List FeedRow)
    (r : FeedRow) (hd : ¬(r.dateISO = "")) (htm : ¬(r.time = ""))
    (hh : ¬(r.horse = "")) {s : Selection}
    (hlk : selMapLookup (candidatesOf L (fs ++ [r])) (feedKey r) = some s)
    (hres : s.hasResult = false) (hsp : validSP r.betfairSP = true) :
    updLookup (batchUps L (fs ++ [r])) s.id =
      some (mkUpdate s r (r.betfairSP.getD 0)) ∧
    ∀ t ∈ unmatchedSelectionsOf L (fs ++ [r]), ¬ selKey t = selKey s := by
  constructor
  · unfold batchUps
    rw [collectUpdates_append_last _ fs r hd htm hh hlk hres hsp]
    exact updLookup_append_last (mkUpdate_selectionId s r _)
  · intro t htin hkey
    unfold unmatchedSelectionsOf at htin
    have h3 := (List.mem_filter.mp htin).2
    rw [Bool.not_eq_true'] at h3
    have h4 := List.any_eq_false.mp h3 r
      (List.mem_append_right fs (List.mem_cons_self r []))
    apply h4
    simp [hd, htm, hh]
    rw [hkey]
    exact ((selMapLookup_mem hlk).2).symm

/-- C9 witness: two feed rows with the same key against a one-row ledger;
the second (appended last) wins and nothing is reported unmatched. -/
theorem C9_duplicate_rows_last_wins_witness :
    updLookup (batchUps [mkSel 1 1 1 "2025-01-01" "10:00" "alpha"]
        ([⟨"2025-01-01", "10:00", "alpha", "GB", "Track", some 3, some 1⟩] ++
          [⟨"2025-01-01", "10:00", "alpha", "GB", "Track", some 4, some (-1)⟩]))
        (mkSel 1 1 1 "2025-01-01" "10:00" "alpha").id =
      some (mkUpdate (mkSel 1 1 1 "2025-01-01" "10:00" "alpha")
        ⟨"2025-01-01", "10:00", "alpha", "GB", "Track", some 4, some (-1)⟩
        ((⟨"2025-01-01", "10:00", "alpha", "GB", "Track", some 4, some (-1)⟩ :
          FeedRow).betfairSP.getD 0)) ∧
    ∀ t ∈ unmatchedSelectionsOf [mkSel 1 1 1 "2025-01-01" "10:00" "alpha"]
        ([⟨"2025-01-01", "10:00", "alpha", "GB", "Track", some 3, some 1⟩] ++
          [⟨"2025-01-01", "10:00", "alpha", "GB", "Track", some 4, some (-1)⟩]),
      ¬ selKey t = selKey (mkSel 1 1 1 "2025-01-01" "10:00" "alpha") :=
  C9_duplicate_rows_last_wins [mkSel 1 1 1 "2025-01-01" "10:00" "alpha"]
    [⟨"2025-01-01", "10:00", "alpha", "GB", "Track", some 3, some 1⟩]
    ⟨"2025-01-01", "10:00", "alpha", "GB", "Track", some 4, some (-1)⟩
    (by decide) (by decide) (by decide) (by decide) (by decide) (by decide)

/-- C9 counterexample: with two same-key feed rows in one batch the claim's
first-match-wins is false — the selection ends with the SECOND row's result
(WON from the negative lay return, not the first row's LOST), and the
second row is not reported: the unmatched report is empty. -/
theorem C9_counterexample :
    (getById (uploadResultsFromCSV [mkSel 1 1 1 "2025-01-01" "10:00" "alpha"]
        [⟨"2025-01-01", "10:00", "alpha", "GB", "Track", some 3, some 1⟩,
         ⟨"2025-01-01", "10:00", "alpha", "GB", "Track", some 4, some (-1)⟩])
      1).map (fun s => s.result) = some (some RaceResult.WON) ∧
    unmatchedSelectionsOf [mkSel 1 1 1 "2025-01-01" "10:00" "alpha"]
      [⟨"2025-01-01", "10:00", "alpha", "GB", "Track", some 3, some 1⟩,
       ⟨"2025-01-01", "10:00", "alpha", "GB", "Track", some 4, some (-1)⟩] = [] := by
  refine ⟨by decide, by decide⟩

/-- C3 counterexample: with two unsettled selections sharing a match key,
re-running the same feed batch is not idempotent — the first run settles
only the later map entry, the second run settles the surviving candidate,
so selection 1 is unsettled after one run but settled after two. -/
theorem C3_counterexample :
    (getById (uploadResultsFromCSV
        [mkSel 1 1 1 "2025-01-01" "10:00" "alpha",
         mkSel 2 1 2 "2025-01-01" "10:00" "alpha"]
        [⟨"2025-01-01", "10:00", "alpha", "", "", some 3, some 1⟩])
      1).map (fun s => s.hasResult) = some false ∧
    (getById (uploadResultsFromCSV (uploadResultsFromCSV
        [mkSel 1 1 1 "2025-01-01" "10:00" "alpha",
         mkSel 2 1 2 "2025-01-01" "10:00" "alpha"]
        [⟨"2025-01-01", "10:00", "alpha", "", "", some 3, some 1⟩])
        [⟨"2025-01-01", "10:00", "alpha", "", "", some 3, some 1⟩])
      1).map (fun s => s.hasResult) = some true ∧
    ¬ (uploadResultsFromCSV (uploadResultsFromCSV
        [mkSel 1 1 1 "2025-01-01" "10:00" "alpha",
         mkSel 2 1 2 "2025-01-01" "10:00" "alpha"]
        [⟨"2025-01-01", "10:00", "alpha", "", "", some 3, some 1⟩])
        [⟨"2025-01-01", "10:00", "alpha", "", "", some 3, some 1⟩] =
      uploadResultsFromCSV
        [mkSel 1 1 1 "2025-01-01" "10:00" "alpha",
         mkSel 2 1 2 "2025-01-01" "10:00" "alpha"]
        [⟨"2025-01-01", "10:00", "alpha", "", "", some 3, some 1⟩]) := by
  have h1 : (getById (uploadResultsFromCSV
      [mkSel 1 1 1 "2025-01-01" "10:00" "alpha",
       mkSel 2 1 2 "2025-01-01" "10:00" "alpha"]
      [⟨"2025-01-01", "10:00", "alpha", "", "", some 3, some 1⟩])
      1).map (fun s => s.hasResult) = some false := by decide
  have h2 : (getById (uploadResultsFromCSV (uploadResultsFromCSV
      [mkSel 1 1 1 "2025-01-01" "10:00" "alpha",
       mkSel 2 1 2 "2025-01-01" "10:00" "alpha"]
      [⟨"2025-01-01", "10:00", "alpha", "", "", some 3, some 1⟩])
      [⟨"2025-01-01", "10:00", "alpha", "", "", some 3, some 1⟩])
      1).map (fun s => s.hasResult) = some true := by decide
  refine ⟨h1, h2, ?_⟩
  intro he
  rw [he, h1] at h2
  exact Bool.false_ne_true (Option.some.inj h2)

/-- C3 amended: idempotence does hold when no two candidates collide on a
match key — the second run then loads no unsettled matching candidate and
collects zero updates, leaving the ledger untouched. -/
theorem C3_amended_idempotent (L : List Selection) (feed : List FeedRow)
    (hid : idsNodup L) (hsys : sysOrdersNodup L)
    (hkeys : ((candidatesOf L feed).map selKey).Nodup) :
    uploadResultsFromCSV (uploadResultsFromCSV L feed) feed =
      uploadResultsFromCSV L feed :=
  upload_idem L feed hid hsys hkeys

/-- C3 witness: a single-candidate batch is idempotent. -/
theorem C3_amended_idempotent_witness :
    uploadResultsFromCSV (uploadResultsFromCSV
        [mkSel 1 1 1 "2025-01-01" "10:00" "alpha"]
        [⟨"2025-01-01", "10:00", "alpha", "", "", some 3, some 1⟩])
      [⟨"2025-01-01", "10:00", "alpha", "", "", some 3, some 1⟩] =
    uploadResultsFromCSV [mkSel 1 1 1 "2025-01-01" "10:00" "alpha"]
      [⟨"2025-01-01", "10:00", "alpha", "", "", some 3, some 1⟩] :=
  C3_amended_idempotent [mkSel 1 1 1 "2025-01-01" "10:00" "alpha"]
    [⟨"2025-01-01", "10:00", "alpha", "", "", some 3, some 1⟩]
    (by unfold idsNodup; decide)
    (fun sys => ((List.filter_sublist [mkSel 1 1 1 "2025-01-01" "10:00" "alpha"]).map
      (fun s => s.rowOrder)).nodup (by decide))
    (by decide)

/-- C1 counterexample: the invariant does not hold for EVERY row after a
mutation — a result edit rewrites only the edited row and the rows after
it, so an earlier row that never had a result keeps `runningWinPL` null
rather than the claimed prefix sum. -/
theorem C1_counterexample :
    ¬ ClaimC1Stated (updateSelectionResults
      [mkSel 1 1 1 "2025-01-01" "10:00" "alpha",
       mkSel 2 1 2 "2025-01-01" "10:30" "beta"]
      2 .LOST 3 none) := by
  intro h
  have h2 := h (mkSel 1 1 1 "2025-01-01" "10:00" "alpha") (by decide)
  exact Option.noConfusion h2

/-- C1 amended: the correct-when-present form of the prefix-sum invariant
is preserved by all three mutations — every row whose `runningWinPL` is set
carries exactly the `winPL` prefix sum of its system, while untouched
unresulted rows may keep it null. -/
theorem C1_amended_invariant (L : List Selection) (feed : List FeedRow) (id : Nat)
    (result : RaceResult) (winBsp : ℚ) (placeBsp : Option ℚ)
    (hid : idsNodup L) (hsys : sysOrdersNodup L)
    (hwf : ∀ s ∈ L, s.hasResult = false → s.winPL = none) (hinv : InvWin L) :
    InvWin (uploadResultsFromCSV L feed) ∧
    InvWin (updateSelectionResults L id result winBsp placeBsp) ∧
    InvWin (deleteSelection L id) :=
  ⟨upload_InvWin L feed hid hsys hinv,
   update_InvWin L id result winBsp placeBsp hid hsys hinv,
   delete_InvWin L id hid hsys hwf hinv⟩

/-- C1 witness: the three mutations on a one-row ledger keep the
correct-when-present invariant. -/
theorem C1_amended_invariant_witness :
    InvWin (uploadResultsFromCSV [mkSel 1 1 1 "2025-01-01" "10:00" "alpha"] []) ∧
    InvWin (updateSelectionResults [mkSel 1 1 1 "2025-01-01" "10:00" "alpha"]
      1 .LOST 0 none) ∧
    InvWin (deleteSelection [mkSel 1 1 1 "2025-01-01" "10:00" "alpha"] 1) :=
  C1_amended_invariant [mkSel 1 1 1 "2025-01-01" "10:00" "alpha"] [] 1 .LOST 0 none
    (by unfold idsNodup; decide)
    (fun sys => ((List.filter_sublist [mkSel 1 1 1 "2025-01-01" "10:00" "alpha"]).map
      (fun s => s.rowOrder)).nodup (by decide))
    (by decide)
    (by unfold InvWin; decide)

/-- C5 counterexample: deleting a resulted row and recomputing does NOT
reproduce the never-inserted ledger — the walk unconditionally seeds the
place accumulator, so a later row that never had any result ends with
`runningWinPL` and `runningPlacePL` set, while in the ledger where the
deleted row was never created that row still has both null. -/
theorem C5_counterexample :
    ((getById (deleteSelection (updateSelectionResults
        (createSelection [1] (createSelection [1] (createSelection [1] []
          ⟨1, "2025-01-01", none, none, "10:00", "alpha"⟩ 1)
          ⟨1, "2025-01-01", none, none, "11:00", "beta"⟩ 2)
          ⟨1, "2025-01-01", none, none, "12:00", "gamma"⟩ 3)
        2 .LOST 3 none) 2) 3).map (fun s => s.runningWinPL.isSome) = some true) ∧
    ((getById (createSelection [1] (createSelection [1] []
        ⟨1, "2025-01-01", none, none, "10:00", "alpha"⟩ 1)
        ⟨1, "2025-01-01", none, none, "12:00", "gamma"⟩ 3)
      3).map (fun s => s.runningWinPL.isSome) = some false) ∧
    ((getById (deleteSelection (updateSelectionResults
        (createSelection [1] (createSelection [1] (createSelection [1] []
          ⟨1, "2025-01-01", none, none, "10:00", "alpha"⟩ 1)
          ⟨1, "2025-01-01", none, none, "11:00", "beta"⟩ 2)
          ⟨1, "2025-01-01", none, none, "12:00", "gamma"⟩ 3)
        2 .LOST 3 none) 2) 3).map (fun s => s.runningPlacePL.isSome) = some true) ∧
    ((getById (createSelection [1] (createSelection [1] []
        ⟨1, "2025-01-01", none, none, "10:00", "alpha"⟩ 1)
        ⟨1, "2025-01-01", none, none, "12:00", "gamma"⟩ 3)
      3).map (fun s => s.runningPlacePL.isSome) = some false) := by
  refine ⟨by decide, by decide, by decide, by decide⟩

/-- C5 amended: what does hold — deleting an unresulted row is pure removal
with no recomputation, and deleting a resulted row preserves the win
prefix-sum invariant for the remaining rows (the place totals may diverge
from the never-inserted ledger). -/
theorem C5_delete_partial (L : List Selection) (id : Nat) (hid : idsNodup L)
    (hsys : sysOrdersNodup L)
    (hwf : ∀ s ∈ L, s.hasResult = false → s.winPL = none) (hinv : InvWin L) :
    InvWin (deleteSelection L id) ∧
    (∀ sel, getById L id = some sel → sel.hasResult = false →
      deleteSelection L id = L.filter (fun u => !(u.id = id))) := by
  refine ⟨delete_InvWin L id hid hsys hwf hinv, ?_⟩
  intro sel hg hres
  have hD : deleteSelection L id =
      (if sel.hasResult = false then L.filter (fun u => !(u.id = id))
      else applyBulk (L.filter (fun u => !(u.id = id)))
        (walkSubsequent (L.filter (fun u => !(u.id = id))) sel.systemId
          (sortByRowOrder ((L.filter (fun u => !(u.id = id))).filter (fun u =>
            decide (u.systemId = sel.systemId) && decide (sel.rowOrder < u.rowOrder))))
          (sumWin (sortByRowOrder ((L.filter (fun u => !(u.id = id))).filter (fun u =>
            decide (u.systemId = sel.systemId) && decide (u.rowOrder < sel.rowOrder)))))
          (some (sumPlaceSome (sortByRowOrder ((L.filter (fun u => !(u.id = id))).filter
            (fun u => decide (u.systemId = sel.systemId) &&
              decide (u.rowOrder < sel.rowOrder)))))))) := by
    unfold deleteSelection
    rw [hg]
  rw [hD, if_pos hres]

/-- C5 witness: deleting the only (unresulted) row of a ledger removes it
and keeps the invariant. -/
theorem C5_delete_partial_witness :
    InvWin (deleteSelection [mkSel 1 1 1 "2025-01-01" "10:00" "alpha"] 1) ∧
    (∀ sel, getById [mkSel 1 1 1 "2025-01-01" "10:00" "alpha"] 1 = some sel →
      sel.hasResult = false →
      deleteSelection [mkSel 1 1 1 "2025-01-01" "10:00" "alpha"] 1 =
        [mkSel 1 1 1 "2025-01-01" "10:00" "alpha"].filter (fun u => !(u.id = 1))) :=
  C5_delete_partial [mkSel 1 1 1 "2025-01-01" "10:00" "alpha"] 1
    (by unfold idsNodup; decide)
    (fun sys => ((List.filter_sublist [mkSel 1 1 1 "2025-01-01" "10:00" "alpha"]).map
      (fun s => s.rowOrder)).nodup (by decide))
    (by decide)
    (by unfold InvWin; decide)
